import Mathlib

set_option maxRecDepth 8000

/-!
Verification development for the MicroLLM-PrivateStack serving core.

The Python modules `backend/security/guardrails.py`, `backend/llm_formatter.py`,
`backend/batch_processor.py` and `backend/semantic_cache_soa.py` are shallowly
embedded below.  Text is modelled as `List Char` / `String`, 64-bit floats as
exact rationals (`ℚ`), and the `re` module by a small backtracking regex
engine whose result ordering mirrors CPython's backtracking order (greedy
quantifiers longest-first, alternation left-first), so that the first result
is the match CPython would produce.
-/

/-- Boolean list-prefix test. -/
def prefB : List Char → List Char → Bool
  | [], _ => true
  | _ :: _, [] => false
  | a :: as, b :: bs => a = b && prefB as bs

/-- Boolean contiguous-substring test (Python's `needle in haystack`). -/
def substrB (n : List Char) : List Char → Bool
  | [] => n.isEmpty
  | c :: rest => prefB n (c :: rest) || substrB n rest

/-- Python `\s` (ASCII whitespace as used by `re` on these inputs). -/
def wsp (c : Char) : Bool :=
  c = ' ' || c = '\t' || c = '\n' || c = '\r' || c = '\x0b' || c = '\x0c'

/-- Python `\w`: letters, digits and underscore. -/
def wordc (c : Char) : Bool := c.isAlphanum || c = '_'

/-- Single-quote character, kept out of string literals. -/
def squote : Char := Char.ofNat 39

/-- Regular expressions, restricted to the constructs the repository's
patterns use: character classes, sequencing, alternation, greedy and lazy
star over a character class, word boundary `\b` and the MULTILINE anchors. -/
inductive RE where
  | eps : RE
  | cls (p : Char → Bool) : RE
  | seq (a b : RE) : RE
  | alt (a b : RE) : RE
  | starG (p : Char → Bool) : RE
  | starL (p : Char → Bool) : RE
  | wordB : RE
  | lineStart : RE
  | lineEnd : RE

/-- Greedy class star: all ways to consume a prefix of `p`-chars,
longest first (CPython's greedy order).  Each result is the pair
(last consumed char if any, rest of input). -/
def starGRun (p : Char → Bool) : Option Char → List Char → List (Option Char × List Char)
  | prev, [] => [(prev, [])]
  | prev, c :: rest =>
    if p c then starGRun p (some c) rest ++ [(prev, c :: rest)]
    else [(prev, c :: rest)]

/-- Lazy class star: same results, shortest first (CPython's lazy order). -/
def starLRun (p : Char → Bool) : Option Char → List Char → List (Option Char × List Char)
  | prev, [] => [(prev, [])]
  | prev, c :: rest =>
    (prev, c :: rest) :: (if p c then starLRun p (some c) rest else [])

/-- Whether an optional character is a `\w` character (`none` = out of text). -/
def isWordO : Option Char → Bool
  | none => false
  | some c => wordc c

/-- All ways a regex can match a prefix of the input, in CPython backtracking
priority order; each result carries the character preceding the rest of the
input (for `\b` and `^`) and the unconsumed suffix.  The head of the list is
the match CPython's engine would commit to at this position. -/
def RE.run : RE → Option Char → List Char → List (Option Char × List Char)
  | .eps, prev, s => [(prev, s)]
  | .cls _, _, [] => []
  | .cls p, _, c :: rest => if p c then [(some c, rest)] else []
  | .seq a b, prev, s => (RE.run a prev s).flatMap (fun pr => RE.run b pr.1 pr.2)
  | .alt a b, prev, s => RE.run a prev s ++ RE.run b prev s
  | .starG p, prev, s => starGRun p prev s
  | .starL p, prev, s => starLRun p prev s
  | .wordB, prev, s => if isWordO prev != isWordO s.head? then [(prev, s)] else []
  | .lineStart, prev, s =>
    if prev = none || prev = some '\n' then [(prev, s)] else []
  | .lineEnd, prev, s =>
    if s.isEmpty || s.head? = some '\n' then [(prev, s)] else []

/-- Python `re.search` scanning from a position whose preceding character is
`prev`: true iff the regex matches starting at some position of `s`. -/
def searchAux (r : RE) : Option Char → List Char → Bool
  | prev, [] => !(r.run prev []).isEmpty
  | prev, c :: rest => !(r.run prev (c :: rest)).isEmpty || searchAux r (some c) rest

/-- Python `re.search(pattern, text)` as a Boolean. -/
def reSearch (r : RE) (s : List Char) : Bool := searchAux r none s

/-- Python `re.sub` with fuel (one unit per scanned position).  At each
position the engine's first (highest-priority) prefix match is replaced by
`repl` applied to the matched characters; an empty match emits the
replacement and advances one character, as CPython does. -/
def subAux (r : RE) (repl : List Char → List Char) :
    Nat → Option Char → List Char → List Char
  | 0, _, s => s
  | fuel + 1, prev, s =>
    match (r.run prev s).head? with
    | some (pr, rem) =>
      if rem.length < s.length then
        repl (s.take (s.length - rem.length)) ++ subAux r repl fuel pr rem
      else
        repl [] ++
          (match s with
           | [] => []
           | c :: rest => c :: subAux r repl fuel (some c) rest)
    | none =>
      match s with
      | [] => []
      | c :: rest => c :: subAux r repl fuel (some c) rest

/-- Python `re.sub(pattern, repl, text)` over the whole text. -/
def reSub (r : RE) (repl : List Char → List Char) (s : List Char) : List Char :=
  subAux r repl (s.length + 1) none s

/-- Case-swap of an ASCII letter (identity on everything else), used to
implement `re.IGNORECASE` literal characters. -/
def otherCase (c : Char) : Char :=
  if c.isLower then c.toUpper else if c.isUpper then c.toLower else c

/-- Class of a case-insensitive literal character. -/
def ciClass (c : Char) : Char → Bool := fun x => x = c || x = otherCase c

/-- Case-sensitive literal string. -/
def lit (s : String) : RE :=
  s.toList.foldr (fun c r => RE.seq (RE.cls (fun x => x = c)) r) RE.eps

/-- Case-insensitive literal from an explicit character list. -/
def litCIchars (cs : List Char) : RE :=
  cs.foldr (fun c r => RE.seq (RE.cls (ciClass c)) r) RE.eps

/-- Case-insensitive literal string (`re.IGNORECASE`). -/
def litCI (s : String) : RE := litCIchars s.toList

/-- Python `(x)?` (greedy option: present first). -/
def optR (r : RE) : RE := RE.alt r RE.eps

/-- Python `p+` over a character class (greedy). -/
def plusC (p : Char → Bool) : RE := RE.seq (RE.cls p) (RE.starG p)

/-- Python `\s+`. -/
def ws1 : RE := plusC wsp

/-- Python `\s*`. -/
def wsStar : RE := RE.starG wsp

/-- Python `p{n}` over a character class. -/
def repC (p : Char → Bool) : Nat → RE
  | 0 => RE.eps
  | n + 1 => RE.seq (RE.cls p) (repC p n)

/-- Python `p{n,}` over a character class (greedy). -/
def repAtLeast (p : Char → Bool) (n : Nat) : RE := RE.seq (repC p n) (RE.starG p)

/-- Python `p{n,m}` over a character class (greedy: each optional character
is tried present-first, so longer consumptions come first). -/
def repRange (p : Char → Bool) (n m : Nat) : RE :=
  RE.seq (repC p n) ((List.range (m - n)).foldr (fun _ r => RE.seq (optR (RE.cls p)) r) RE.eps)

/-- Chain a list of regexes in sequence. -/
def seqAll (rs : List RE) : RE := rs.foldr RE.seq RE.eps

/-- Kernel-reducible rational addition.  (The library's `Rat.add`, `Rat.mul`,
`Rat.div` and `Rat.ofScientific` carry `@[extern]` implementations that the
evaluator will not unfold, so the embedding uses these `Rat.divInt`-based
versions; they are proved extensionally equal to the field operations in
`qadd_eq`, `qmul_eq`, `qsub_eq` and `qdiv_eq` below.) -/
def qadd (a b : ℚ) : ℚ := Rat.divInt (a.num * b.den + b.num * a.den) ((a.den : Int) * b.den)

/-- Kernel-reducible rational subtraction. -/
def qsub (a b : ℚ) : ℚ := Rat.divInt (a.num * b.den - b.num * a.den) ((a.den : Int) * b.den)

/-- Kernel-reducible rational multiplication. -/
def qmul (a b : ℚ) : ℚ := Rat.divInt (a.num * b.num) ((a.den : Int) * b.den)

/-- Kernel-reducible rational division (0 on a zero divisor, as in Mathlib). -/
def qdiv (a b : ℚ) : ℚ := Rat.divInt (a.num * b.den) ((a.den : Int) * b.num)

/-- Computable minimum on ℚ (Python `min`). -/
def qmin (a b : ℚ) : ℚ := if a ≤ b then a else b

/-- Computable maximum on ℚ (Python `max`). -/
def qmax (a b : ℚ) : ℚ := if b ≤ a then a else b

/-! ## Guardrail filter (backend/security/guardrails.py, class OutputGuardrail) -/

/-- Digit class `\d`. -/
def digitC (c : Char) : Bool := c.isDigit

/-- OWASP ASVS V5.3.1 prompt-injection patterns (searched with IGNORECASE). -/
def INJECTION_PATTERNS : List RE := [
  seqAll [litCI "ignore", ws1, optR (RE.seq (litCI "all") ws1), litCI "previous", ws1,
          litCI "instruction", optR (litCI "s")],
  seqAll [litCI "ignore", ws1, optR (RE.seq (litCI "all") ws1), litCI "above"],
  seqAll [litCI "disregard", ws1, optR (RE.seq (litCI "all") ws1), litCI "previous"],
  seqAll [litCI "forget", ws1, optR (RE.seq (litCI "all") ws1), litCI "previous"],
  seqAll [litCI "new", ws1, litCI "instruction", optR (litCI "s"), litCI ":"],
  seqAll [litCI "system", wsStar, litCI ":", wsStar, litCI "you", ws1, litCI "are"],
  seqAll [litCI "you", ws1, litCI "are", ws1, litCI "now", ws1,
          optR (RE.seq (litCI "a") ws1), litCI "DAN"],
  seqAll [litCI "developer", ws1, litCI "mode"],
  litCI "jailbreak",
  seqAll [litCI "chatgpt", ws1, litCI "with", ws1, litCI "developer", ws1, litCI "mode"],
  seqAll [litCI "reveal", ws1, optR (RE.seq (litCI "your") ws1), litCI "system", ws1,
          litCI "prompt"],
  seqAll [litCI "what", ws1, RE.alt (litCI "are") (litCI "is"), ws1, litCI "your", ws1,
          optR (RE.seq (litCI "initial") ws1), litCI "instruction", optR (litCI "s")]]

/-- OutputGuardrail._detect_injection: true iff any injection pattern matches. -/
def detect_injection (prompt : String) : Bool :=
  INJECTION_PATTERNS.any (fun r => reSearch r prompt.toList)

/-- XSS patterns from OutputGuardrail._scan_xss (searched with IGNORECASE). -/
def XSS_PATTERNS : List RE := [
  seqAll [litCI "<script", RE.starG (fun c => c != '>'), litCI ">"],
  litCI "javascript:",
  seqAll [litCI "on", plusC wordc, wsStar, litCI "="],
  seqAll [litCI "<iframe", RE.starG (fun c => c != '>'), litCI ">"],
  seqAll [litCI "eval", wsStar, litCI "("]]

/-- OutputGuardrail._scan_xss: true iff any XSS vector matches the text. -/
def scan_xss (text : String) : Bool :=
  XSS_PATTERNS.any (fun r => reSearch r text.toList)

/-- Email local-part class `[A-Za-z0-9._%+-]`. -/
def emailLocalC (c : Char) : Bool :=
  c.isAlphanum || c = '.' || c = '_' || c = '%' || c = '+' || c = '-'

/-- Email domain class `[A-Za-z0-9.-]`. -/
def emailDomC (c : Char) : Bool := c.isAlphanum || c = '.' || c = '-'

/-- Email TLD class `[A-Z|a-z]` (the source class contains a literal pipe). -/
def emailTldC (c : Char) : Bool := c.isUpper || c = '|' || c.isLower

/-- Class `[-.]`. -/
def dashDot (c : Char) : Bool := c = '-' || c = '.'

/-- Class `[- ]`. -/
def dashSpace (c : Char) : Bool := c = '-' || c = ' '

/-- PII pattern for emails (case-sensitive, as in the source's findall/sub). -/
def PII_email : RE :=
  seqAll [RE.wordB, plusC emailLocalC, lit "@", plusC emailDomC, lit ".",
          repAtLeast emailTldC 2, RE.wordB]

/-- PII pattern for phone numbers. -/
def PII_phone : RE :=
  seqAll [RE.wordB, repC digitC 3, optR (RE.cls dashDot), repC digitC 3,
          optR (RE.cls dashDot), repC digitC 4, RE.wordB]

/-- PII pattern for SSNs. -/
def PII_ssn : RE :=
  seqAll [RE.wordB, repC digitC 3, lit "-", repC digitC 2, lit "-", repC digitC 4, RE.wordB]

/-- PII pattern for credit cards. -/
def PII_card : RE :=
  seqAll [RE.wordB, repC digitC 4, optR (RE.cls dashSpace), repC digitC 4,
          optR (RE.cls dashSpace), repC digitC 4, optR (RE.cls dashSpace), repC digitC 4,
          RE.wordB]

/-- PII pattern for IPv4 addresses. -/
def PII_ip : RE :=
  seqAll [RE.wordB, repRange digitC 1 3, lit ".", repRange digitC 1 3, lit ".",
          repRange digitC 1 3, lit ".", repRange digitC 1 3, RE.wordB]

/-- OutputGuardrail._detect_pii: the returned `detected` flag (some PII type
has at least one findall match, i.e. some pattern matches somewhere). -/
def detect_pii (text : String) : Bool :=
  [PII_email, PII_phone, PII_ssn, PII_card, PII_ip].any (fun r => reSearch r text.toList)

/-- OutputGuardrail._mask_pii: redacts emails, phones, SSNs and credit cards
(in that order).  Note: the `ip_address` pattern of `PII_PATTERNS` has no
corresponding substitution here, exactly as in the source. -/
def mask_pii (text : String) : String :=
  let t1 := reSub PII_email (fun _ => "[EMAIL_REDACTED]".toList) text.toList
  let t2 := reSub PII_phone (fun _ => "[PHONE_REDACTED]".toList) t1
  let t3 := reSub PII_ssn (fun _ => "[SSN_REDACTED]".toList) t2
  let t4 := reSub PII_card (fun _ => "[CARD_REDACTED]".toList) t3
  String.mk t4

/-- Quote class `['"]`. -/
def quoteC (c : Char) : Bool := c = '"' || c = squote

/-- Key-material class `[a-zA-Z0-9_-]`. -/
def keyCharC (c : Char) : Bool := c.isAlphanum || c = '_' || c = '-'

/-- Class `[:=]`. -/
def colonEq (c : Char) : Bool := c = ':' || c = '='

/-- Secret pattern `(api[_-]?key|apikey)['"]?\s*[:=]\s*['"]([a-zA-Z0-9_\-]{20,})['"]`. -/
def SECRET_api_key : RE :=
  seqAll [RE.alt (seqAll [litCI "api", optR (RE.cls (fun c => c = '_' || c = '-')),
                          litCI "key"]) (litCI "apikey"),
          optR (RE.cls quoteC), wsStar, RE.cls colonEq, wsStar, RE.cls quoteC,
          repAtLeast keyCharC 20, RE.cls quoteC]

/-- Secret pattern for JWT-shaped strings. -/
def SECRET_jwt : RE :=
  seqAll [litCI "eyJ", RE.starG keyCharC, lit ".", litCI "eyJ", RE.starG keyCharC,
          lit ".", RE.starG keyCharC]

/-- Secret pattern `(password|passwd|pwd)['"]?\s*[:=]\s*['"]([^'"]{8,})['"]`. -/
def SECRET_password : RE :=
  seqAll [RE.alt (litCI "password") (RE.alt (litCI "passwd") (litCI "pwd")),
          optR (RE.cls quoteC), wsStar, RE.cls colonEq, wsStar, RE.cls quoteC,
          repAtLeast (fun c => !(quoteC c)) 8, RE.cls quoteC]

/-- Secret pattern `-----BEGIN (RSA |EC )?PRIVATE KEY-----`. -/
def SECRET_private_key : RE :=
  seqAll [litCI "-----BEGIN ", optR (RE.alt (litCI "RSA ") (litCI "EC ")),
          litCI "PRIVATE KEY-----"]

/-- OutputGuardrail._scan_secrets (searched with IGNORECASE). -/
def scan_secrets (text : String) : Bool :=
  [SECRET_api_key, SECRET_jwt, SECRET_password, SECRET_private_key].any
    (fun r => reSearch r text.toList)

/-- Hallucination indicator patterns (searched with IGNORECASE).  Literals
containing a single quote are spelled with `squote`. -/
def HALLUCINATION_INDICATORS : List RE := [
  seqAll [litCI "i", ws1,
          RE.alt (litCIchars ['d','o','n',squote,'t']) (seqAll [litCI "do", ws1, litCI "not"]),
          ws1, litCI "have", ws1, litCI "access"],
  seqAll [litCI "i", ws1, litCI "cannot", ws1, litCI "access"],
  seqAll [litCI "as", ws1, litCI "an", ws1, litCI "ai"],
  seqAll [litCIchars ['i',squote,'m'], ws1, optR (RE.seq (litCI "just") ws1),
          litCI "an", ws1, litCI "ai"],
  seqAll [litCI "i", ws1, litCIchars ['d','o','n',squote,'t'], ws1, litCI "actually",
          ws1, litCI "know"],
  seqAll [litCIchars ['i',squote,'m'], ws1, litCI "not", ws1, litCI "sure"],
  seqAll [litCIchars ['i','t',squote,'s'], ws1, litCI "possible", ws1, litCI "that"],
  seqAll [litCI "this", ws1, litCI "might", ws1, litCI "not", ws1, litCI "be", ws1,
          litCI "accurate"]]

/-- OutputGuardrail._score_hallucination: 0.2 per matched indicator, plus 0.3
when a retrieval context is supplied (the `rag_docs` key is present) and no
document snippet occurs verbatim in the response; capped at 1.
`context = some docs` models a context dict containing the `rag_docs` key. -/
def score_hallucination (response : String) (context : Option (List String)) : ℚ :=
  let base : ℚ :=
    qmul ((HALLUCINATION_INDICATORS.filter (fun r => reSearch r response.toList)).length : ℚ)
      (Rat.divInt 2 10)
  let withCtx :=
    match context with
    | some docs =>
      if docs.any (fun d => substrB d.toList response.toList) then base
      else qadd base (Rat.divInt 3 10)
    | none => base
  qmin withCtx 1

/-- Toxicity keyword lists (hate_speech, profanity, violence, sexual). -/
def TOXIC_KEYWORDS : List (List String) := [
  ["hate", "racist", "nazi", "terrorist"],
  ["f*ck", "s*it", "damn", "hell"],
  ["kill", "murder", "assault", "attack"],
  ["porn", "sexual", "nsfw"]]

/-- OutputGuardrail._score_toxicity: per category, 0.1 per keyword occurring
in the lowercased text; the overall score is the maximum category score,
capped at 1. -/
def score_toxicity (response : String) : ℚ :=
  let tl := response.toList.map Char.toLower
  let score := TOXIC_KEYWORDS.foldl
    (fun sc kws =>
      qmax sc (qmul ((kws.filter (fun k => substrB k.toList tl)).length : ℚ) (Rat.divInt 1 10)))
    0
  qmin score 1

/-- Uncertainty words used by OutputGuardrail._calculate_confidence. -/
def UNCERTAINTY_WORDS : List String := ["maybe", "perhaps", "possibly", "might", "could be"]

/-- OutputGuardrail._calculate_confidence. -/
def calculate_confidence (response : String) (context : Option (List String)) : ℚ :=
  let c0 : ℚ := Rat.divInt 1 2
  let c1 := if response.length < 50 then qsub c0 (Rat.divInt 2 10)
            else if response.length > 500 then qadd c0 (Rat.divInt 1 10) else c0
  let c2 := if reSearch (plusC digitC) response.toList then qadd c1 (Rat.divInt 1 10) else c1
  let c3 : ℚ :=
    match context with
    | some docs => if docs.isEmpty then c2 else qadd c2 (Rat.divInt 2 10)
    | none => c2
  let ucount := (UNCERTAINTY_WORDS.filter
    (fun w => substrB w.toList (response.toList.map Char.toLower))).length
  let c4 := if ucount > 2 then qsub c3 (qmul (Rat.divInt 1 10) (ucount : ℚ)) else c3
  qmax 0 (qmin 1 c4)

/-- Configuration of OutputGuardrail (constructor defaults in `defaultConfig`). -/
structure GuardrailConfig where
  toxicity_threshold : ℚ
  hallucination_threshold : ℚ
  strict_mode : Bool
  mask_pii : Bool
deriving DecidableEq

/-- The constructor defaults: 0.7, 0.8, strict, mask PII. -/
def defaultConfig : GuardrailConfig := ⟨Rat.divInt 7 10, Rat.divInt 8 10, true, true⟩

/-- Result of OutputGuardrail.validate_output (the timestamp and the raw
per-check dictionaries are represented by their decision-relevant fields). -/
structure GuardrailResult where
  safe : Bool
  response : String
  blocked : Bool
  warnings : List String
  prompt_injection : Bool
  xss_vectors : Bool
  pii_leakage : Bool
  secrets_leaked : Bool
  hallucination_score : ℚ
  toxicity_score : ℚ
  confidence_score : ℚ
deriving DecidableEq

/-- OutputGuardrail.validate_output, step for step: injection check on the
prompt (blocks), XSS scan on the response (warning only), PII detection
(mask if configured, else block), secrets scan (blocks), hallucination
scoring (warning only), toxicity scoring (blocks in strict mode above the
threshold, else warning), confidence scoring; a blocked result replaces the
response with the fixed block message. -/
def validate_output (cfg : GuardrailConfig) (prompt response : String)
    (context : Option (List String)) : GuardrailResult :=
  let inj := detect_injection prompt
  let blocked1 := inj
  let xss := scan_xss response
  let warnings1 : List String :=
    if xss then ["Potential XSS vectors in response"] else []
  let pii := detect_pii response
  let safeResp1 := if pii && cfg.mask_pii then mask_pii response else response
  let warnings2 :=
    if pii && cfg.mask_pii then warnings1 ++ ["PII detected and masked"] else warnings1
  let blocked2 := blocked1 || (pii && !cfg.mask_pii)
  let secrets := scan_secrets response
  let blocked3 := blocked2 || secrets
  let hall := score_hallucination response context
  let warnings3 := warnings2 ++
    (if hall > cfg.hallucination_threshold then ["High hallucination risk"] else [])
  let tox := score_toxicity response
  let blocked4 := blocked3 || (decide (tox > cfg.toxicity_threshold) && cfg.strict_mode)
  let warnings4 := warnings3 ++
    (if decide (tox > cfg.toxicity_threshold) && !cfg.strict_mode
     then ["Potentially toxic content"] else [])
  let conf := calculate_confidence response context
  let finalResp :=
    if blocked4 then "[Content blocked by security guardrails]" else safeResp1
  { safe := !blocked4, response := finalResp, blocked := blocked4,
    warnings := warnings4, prompt_injection := inj, xss_vectors := xss,
    pii_leakage := pii, secrets_leaked := secrets,
    hallucination_score := hall, toxicity_score := tox, confidence_score := conf }


/-! ## Output formatter (backend/llm_formatter.py, class LLMOutputFormatter) -/

/-- Pattern `<think>.*?</think>` with DOTALL and IGNORECASE (lazy star over
any character). -/
def thinkBlockRE : RE :=
  RE.seq (litCI "<think>") (RE.seq (RE.starL (fun _ => true)) (litCI "</think>"))

/-- Pattern `</?think>` with IGNORECASE. -/
def thinkOrphanRE : RE := RE.seq (litCI "<") (RE.seq (optR (litCI "/")) (litCI "think>"))

/-- LLMOutputFormatter.clean_thinking_tags: remove think blocks, then orphan
tags. -/
def clean_thinking_tags (t : List Char) : List Char :=
  reSub thinkOrphanRE (fun _ => []) (reSub thinkBlockRE (fun _ => []) t)

/-- Prepend a character to the first piece of a split result. -/
def splitConsHead (c : Char) : List (List Char) → List (List Char)
  | [] => [[c]]
  | p :: ps => (c :: p) :: ps

/-- Python `text.split(". ")`: split on every (leftmost, non-overlapping)
occurrence of period-space. -/
def splitDS : List Char → List (List Char)
  | [] => [[]]
  | [c] => [[c]]
  | c :: d :: rest =>
    if c = '.' ∧ d = ' ' then [] :: splitDS rest
    else splitConsHead c (splitDS (d :: rest))

/-- Python str.strip(): drop leading and trailing whitespace. -/
def stripChars (t : List Char) : List Char :=
  ((t.dropWhile wsp).reverse.dropWhile wsp).reverse

/-- The loop of remove_repetitions: strip each sentence, keep it when
non-empty and its lowercase form is unseen. -/
def dedupeSentences : List (List Char) → List (List Char) → List (List Char)
  | _, [] => []
  | seen, sRaw :: rest =>
    let s := stripChars sRaw
    if !s.isEmpty && !(seen.contains (s.map Char.toLower)) then
      s :: dedupeSentences ((s.map Char.toLower) :: seen) rest
    else dedupeSentences seen rest

/-- LLMOutputFormatter.remove_repetitions. -/
def remove_repetitions (t : List Char) : List Char :=
  List.intercalate ['.', ' '] (dedupeSentences [] (splitDS t))

/-- Sentence-end class `[.!?]`. -/
def punctC (c : Char) : Bool := c = '.' || c = '!' || c = '?'

/-- Bullet-marker class of the source pattern: the three bytes of the
mis-decoded bullet character, dash and asterisk. -/
def bulletC (c : Char) : Bool := c = 'â' || c = '€' || c = '¢' || c = '-' || c = '*'

/-- Replacement `\1\n\n\2` for `([.!?])\s+([A-Z])`: group 1 is the first
matched character and group 2 the last. -/
def paraRepl1 (m : List Char) : List Char :=
  match m with
  | [] => []
  | a :: rest => a :: '\n' :: '\n' :: [rest.getLastD a]

/-- Replacement `\n\1 ` for `(\d+\.)\s+`: group 1 is the digits-plus-period
part, i.e. the non-whitespace characters of the match. -/
def paraRepl2 (m : List Char) : List Char :=
  '\n' :: (m.filter (fun c => !(wsp c))) ++ [' ']

/-- Replacement `\n\1 ` for `([â€¢\-\*])\s+`: group 1 is the marker. -/
def paraRepl3 (m : List Char) : List Char :=
  match m with
  | [] => []
  | a :: _ => ['\n', a, ' ']

/-- LLMOutputFormatter.format_paragraphs: sentence breaks before capitals,
then numbered-list breaks, then bullet breaks. -/
def format_paragraphs (t : List Char) : List Char :=
  let t1 := reSub (seqAll [RE.cls punctC, ws1, RE.cls (fun c => c.isUpper)]) paraRepl1 t
  let t2 := reSub (seqAll [plusC digitC, lit ".", ws1]) paraRepl2 t1
  reSub (seqAll [RE.cls bulletC, ws1]) paraRepl3 t2

/-- LLMOutputFormatter.clean_whitespace: collapse space runs, cap blank
lines at one, strip the ends. -/
def clean_whitespace (t : List Char) : List Char :=
  let t1 := reSub (plusC (fun c => c = ' ')) (fun _ => [' ']) t
  let t2 := reSub (seqAll [RE.cls (fun c => c = '\n'), RE.cls (fun c => c = '\n'),
                           plusC (fun c => c = '\n')]) (fun _ => ['\n', '\n']) t1
  stripChars t2

/-- Replacement `\1 \2` for the MULTILINE header pattern `^(#{1,6})\s+(.+)$`:
group 1 is the hash run; group 2 is the tail after the whitespace run (when
the whole tail is whitespace the engine backtracked one character, so group
2 is the final character). -/
def headerRepl (m : List Char) : List Char :=
  let hs := m.takeWhile (fun c => c = '#')
  let t := m.drop hs.length
  let rest := t.dropWhile wsp
  if rest.isEmpty then hs ++ [' ', t.getLastD ' '] else hs ++ [' '] ++ rest

/-- Header pattern `^(#{1,6})\s+(.+)$` with MULTILINE (`.` excludes the
newline; `$` matches at a newline or at the end). -/
def headerRE : RE :=
  seqAll [RE.lineStart, repRange (fun c => c = '#') 1 6, ws1,
          plusC (fun c => c != '\n'), RE.lineEnd]

/-- Code-fence pattern: three backticks, an optional language word, a
newline; the replacement reproduces the match unchanged. -/
def fenceRE : RE :=
  seqAll [lit "```", optR (plusC wordc), RE.cls (fun c => c = '\n')]

/-- LLMOutputFormatter.format_markdown. -/
def format_markdown (t : List Char) : List Char :=
  reSub fenceRE (fun m => m) (reSub headerRE headerRepl t)

/-- LLMOutputFormatter.format_response: empty input short-circuits,
otherwise think-tag removal, repetition removal, paragraph formatting,
whitespace cleanup and markdown formatting in order. -/
def format_response (raw : String) : String :=
  if raw.isEmpty then ""
  else
    String.mk (format_markdown (clean_whitespace (format_paragraphs
      (remove_repetitions (clean_thinking_tags raw.toList)))))

/-! ## Continuous batcher (backend/batch_processor.py) -/

/-- BatchRequest; the asyncio future and the enqueue timestamp take no part
in grouping. -/
structure BatchRequest where
  request_id : String
  prompt : String
  max_tokens : Int
  temperature : ℚ
  top_p : ℚ
deriving DecidableEq

/-- The grouping key `(max_tokens, temperature, top_p)`. -/
def groupKey (r : BatchRequest) : Int × ℚ × ℚ := (r.max_tokens, r.temperature, r.top_p)

/-- One step of the `defaultdict(list)` accumulation: append the request to
its key's bucket, creating a fresh bucket at the end on a new key (Python
dicts preserve insertion order). -/
def insertGrouped (gs : List ((Int × ℚ × ℚ) × List BatchRequest)) (r : BatchRequest) :
    List ((Int × ℚ × ℚ) × List BatchRequest) :=
  match gs with
  | [] => [(groupKey r, [r])]
  | (k, g) :: rest =>
    if k = groupKey r then (k, g ++ [r]) :: rest else (k, g) :: insertGrouped rest r

/-- ContinuousBatchProcessor._group_by_params: the bucket lists, in key
first-occurrence order. -/
def group_by_params (batch : List BatchRequest) : List (List BatchRequest) :=
  (batch.foldl insertGrouped []).map Prod.snd

/-- The distinct grouping keys of a batch in order of first occurrence. -/
def keysInOrder (batch : List BatchRequest) : List (Int × ℚ × ℚ) :=
  batch.foldl (fun ks r => if groupKey r ∈ ks then ks else ks ++ [groupKey r]) []

/-! ## SoA semantic cache (backend/semantic_cache_soa.py) -/

/-- Metadata row of the cache (CacheEntry). -/
structure CacheEntry where
  prompt_hash : String
  prompt : String
  response : String
  timestamp : ℚ
  hit_count : Nat
deriving DecidableEq

/-- Deterministic environment of a cache instance: the embedding function
(either the injected one or the hash-seeded fallback — both deterministic
functions of the prompt), `np.linalg.norm` as a norm oracle (exact square
roots leave ℚ; theorems that need it assume `(nrm v)^2 = dotQ v v ∧ 0 ≤ nrm v`
at the vectors involved), and the truncated SHA-256 prompt hash as a string
oracle. -/
structure CacheEnv where
  emb : String → List ℚ
  nrm : List ℚ → ℚ
  hash : String → String

/-- Mutable state of SemanticCacheSOA; the fixed-size numpy arrays are total
maps from the slot index, `embeddings i` being column `i`. -/
structure SOAState where
  dimension : Nat
  max_entries : Nat
  similarity_threshold : ℚ
  embeddings : Nat → List ℚ
  norms : Nat → ℚ
  entries : Nat → Option CacheEntry
  n_entries : Nat
  total_hits : Nat
  total_misses : Nat

/-- A fresh cache (`__init__` without a configured KV store). -/
def SOAState.init (dim maxE : Nat) (θ : ℚ) : SOAState :=
  { dimension := dim, max_entries := maxE, similarity_threshold := θ,
    embeddings := fun _ => List.replicate dim 0, norms := fun _ => 0,
    entries := fun _ => none, n_entries := 0, total_hits := 0, total_misses := 0 }

/-- Dot product of two float vectors (`np.dot`). -/
def dotQ : List ℚ → List ℚ → ℚ
  | [], _ => 0
  | _, [] => 0
  | a :: as, b :: bs => qadd (qmul a b) (dotQ as bs)

/-- The guard constant 1e-8 of _compute_similarities. -/
def eps8 : ℚ := Rat.divInt 1 100000000

/-- Cosine similarity of the query against slot `i` as computed by
_compute_similarities: `dots[i] / (query_norm * norms[i])` where the mask
`(active_norms > 1e-8) & (query_norm > 1e-8)` holds, else 0 (no division is
performed on a masked-out slot). -/
def simAt (env : CacheEnv) (s : SOAState) (q : List ℚ) (i : Nat) : ℚ :=
  if s.norms i > eps8 ∧ env.nrm q > eps8 then
    qdiv (dotQ q (s.embeddings i)) (qmul (env.nrm q) (s.norms i))
  else 0

/-- SemanticCacheSOA._compute_similarities over the active prefix. -/
def compute_similarities (env : CacheEnv) (s : SOAState) (q : List ℚ) : List ℚ :=
  if s.n_entries = 0 then [] else (List.range s.n_entries).map (simAt env s q)

/-- Body of `np.argmax`: strict improvement only, so ties keep the earliest
index. -/
def argmaxAux : List ℚ → Nat → Nat → ℚ → Nat
  | [], _, bi, _ => bi
  | x :: rest, i, bi, bv =>
    if x > bv then argmaxAux rest (i + 1) i x else argmaxAux rest (i + 1) bi bv

/-- `np.argmax` over a list (0 on the empty list, which get never passes). -/
def argmaxIdx : List ℚ → Nat
  | [] => 0
  | x :: rest => argmaxAux rest 1 0 x

/-- SemanticCacheSOA.get: the returned pair (response-or-none, best
similarity) and the successor state (hit count and counters updated). -/
def SOAState.get (env : CacheEnv) (s : SOAState) (prompt : String) :
    (Option String × ℚ) × SOAState :=
  if s.n_entries = 0 then
    ((none, 0), { s with total_misses := s.total_misses + 1 })
  else
    let q := env.emb prompt
    let sims := compute_similarities env s q
    let bestIdx := argmaxIdx sims
    let best := sims.getD bestIdx 0
    if best ≥ s.similarity_threshold then
      match s.entries bestIdx with
      | some e =>
        ((some e.response, best),
         { s with
            entries := Function.update s.entries bestIdx
              (some { e with hit_count := e.hit_count + 1 }),
            total_hits := s.total_hits + 1 })
      | none => ((none, best), { s with total_misses := s.total_misses + 1 })
    else ((none, best), { s with total_misses := s.total_misses + 1 })

/-- SemanticCacheSOA._find_eviction_candidate: the active slot minimizing
`timestamp + hit_count * 3600` (strict improvement keeps the lowest index;
empty metadata slots are skipped; the initial best score is float('inf'),
modelled as `none`). -/
def find_eviction_candidate (s : SOAState) : Nat :=
  ((List.range s.n_entries).foldl
    (fun acc i =>
      match s.entries i with
      | some e =>
        let score := qadd e.timestamp (qmul ((e.hit_count : Nat) : ℚ) ((3600 : Nat) : ℚ))
        match acc.2 with
        | none => (i, some score)
        | some b => if score < b then (i, some score) else acc
      | none => acc)
    ((0 : Nat), (none : Option ℚ))).1

/-- The slot SemanticCacheSOA.set writes to (append while not full, else the
eviction candidate). -/
def setIndex (s : SOAState) : Nat :=
  if s.n_entries ≥ s.max_entries then find_eviction_candidate s else s.n_entries

/-- SemanticCacheSOA.set at wall-clock time `t`: the written index and the
successor state. -/
def SOAState.set (env : CacheEnv) (s : SOAState) (prompt response : String) (t : ℚ) :
    Nat × SOAState :=
  let e := env.emb prompt
  let idx := setIndex s
  let n := if s.n_entries ≥ s.max_entries then s.n_entries else s.n_entries + 1
  (idx,
   { s with
      embeddings := Function.update s.embeddings idx e,
      norms := Function.update s.norms idx (env.nrm e),
      entries := Function.update s.entries idx
        (some { prompt_hash := env.hash prompt,
                prompt := String.mk (prompt.toList.take 200),
                response := response, timestamp := t, hit_count := 0 }),
      n_entries := n })

/-- SemanticCacheSOA.invalidate None: clear everything. -/
def SOAState.invalidateAll (s : SOAState) : Nat × SOAState :=
  (s.n_entries,
   { s with
      embeddings := fun _ => List.replicate s.dimension 0,
      norms := fun _ => 0, entries := fun _ => none, n_entries := 0 })

/-- Whether invalidate(prompt) clears slot `i`. -/
def invHit (env : CacheEnv) (s : SOAState) (prompt : String) (i : Nat) : Bool :=
  decide (i < s.n_entries) &&
    (match s.entries i with
     | some e => e.prompt_hash = env.hash prompt
     | none => false)

/-- SemanticCacheSOA.invalidate prompt: every active slot whose stored hash
matches is zeroed and its metadata removed; `n_entries` stays unchanged. -/
def SOAState.invalidate (env : CacheEnv) (s : SOAState) (prompt : String) :
    Nat × SOAState :=
  (((List.range s.n_entries).filter (fun i => invHit env s prompt i)).length,
   { s with
      embeddings := fun i =>
        if invHit env s prompt i then List.replicate s.dimension 0 else s.embeddings i,
      norms := fun i => if invHit env s prompt i then 0 else s.norms i,
      entries := fun i => if invHit env s prompt i then none else s.entries i })

/-- An external key-value snapshot: the count key, the embeddings blob (a
flat float vector) and the per-index metadata entries. -/
structure RedisStore where
  count : Option Nat
  blob : Option (List ℚ)
  entryAt : Nat → Option CacheEntry

/-- Column `i` of a flat row-major (dim × max) float matrix. -/
def blobColumn (dim maxE : Nat) (floats : List ℚ) (i : Nat) : List ℚ :=
  (List.range dim).map (fun d => floats.getD (d * maxE + i) 0)

/-- SemanticCacheSOA._load_from_redis on a fresh cache: the count key is
applied first; the blob is applied only when its length is exactly
dimension × max_entries, in which case norms are recomputed column-wise;
metadata entries below the restored count are loaded individually when
present.  Nothing resets the count when the blob is missing or mis-sized. -/
def load_from_redis (env : CacheEnv) (dim maxE : Nat) (θ : ℚ) (store : RedisStore) :
    SOAState :=
  let s0 := SOAState.init dim maxE θ
  let n := store.count.getD 0
  let s1 :=
    match store.blob with
    | some fs =>
      if fs.length = dim * maxE then
        { s0 with
           embeddings := fun i => blobColumn dim maxE fs i,
           norms := fun i => env.nrm (blobColumn dim maxE fs i) }
      else s0
    | none => s0
  { s1 with n_entries := n, entries := fun i => if i < n then store.entryAt i else none }

/-- Fold a list of (prompt, response, time) inserts over a state. -/
def applySets (env : CacheEnv) (s : SOAState) : List (String × String × ℚ) → SOAState
  | [] => s
  | (p, r, t) :: rest => applySets env (SOAState.set env s p r t).2 rest

/-- Invariant I1 of the spec: every active slot has metadata, and its cached
norm agrees with its column's norm within 1e-5. -/
def CacheInv (env : CacheEnv) (s : SOAState) : Prop :=
  ∀ i, i < s.n_entries →
    s.entries i ≠ none ∧ |s.norms i - env.nrm (s.embeddings i)| < Rat.divInt 1 100000

/-- The norm-consistency half of I1 on its own. -/
def NormInv (env : CacheEnv) (s : SOAState) : Prop :=
  ∀ i, i < s.n_entries → |s.norms i - env.nrm (s.embeddings i)| < Rat.divInt 1 100000

/-! ## Auxiliary definitions for the development -/

/-- Zero-width regexes: they consume nothing and succeed at most once. -/
inductive IsAssert : RE → Prop
  | eps : IsAssert RE.eps
  | wordB : IsAssert RE.wordB
  | lineStart : IsAssert RE.lineStart
  | lineEnd : IsAssert RE.lineEnd

/-- `NeedsHead r p` certifies that every match of `r` begins by consuming a
character of the class `p` (possibly after zero-width assertions). -/
inductive NeedsHead : RE → (Char → Bool) → Prop
  | cls (p : Char → Bool) : NeedsHead (RE.cls p) p
  | seqL {a : RE} (b : RE) {p : Char → Bool} :
      NeedsHead a p → NeedsHead (RE.seq a b) p
  | seqA {a b : RE} {p : Char → Bool} :
      IsAssert a → NeedsHead b p → NeedsHead (RE.seq a b) p

/-- The lowercase ASCII letters, the restricted alphabet on which the output
filter is shown to act as the identity. -/
def lcChars : List Char :=
  ['a','b','c','d','e','f','g','h','i','j','k','l','m','n',
   'o','p','q','r','s','t','u','v','w','x','y','z']

/-- The stored prompt hash of a slot, if occupied. -/
def hashAt (s : SOAState) (i : Nat) : Option String :=
  (s.entries i).map CacheEntry.prompt_hash

/-- Canonical bucket list: one bucket per key, holding the requests of that
key in arrival order. -/
def canonGroups (l : List BatchRequest) (ks : List (Int × ℚ × ℚ)) :
    List ((Int × ℚ × ℚ) × List BatchRequest) :=
  ks.map (fun k => (k, l.filter (fun r => groupKey r = k)))

/-- First-occurrence key accumulation continued from a given key list. -/
def keysFrom (ks : List (Int × ℚ × ℚ)) (batch : List BatchRequest) :
    List (Int × ℚ × ℚ) :=
  batch.foldl (fun acc r => if groupKey r ∈ acc then acc else acc ++ [groupKey r]) ks

/-- Example cache environment: a constant embedding [3, 4] (a float vector
whose arithmetic is exact: norm 5, dot 25), the exact norm on it, and the
identity as (collision-free) prompt hash. -/
def envEx : CacheEnv :=
  { emb := fun _ => [3, 4],
    nrm := fun v => if v = [3, 4] then 5 else 0,
    hash := fun p => p }

/-- Example environment in which the prompt "z" has the zero embedding. -/
def envDeg : CacheEnv :=
  { emb := fun p => if p = "z" then [0, 0] else [3, 4],
    nrm := fun v => if v = [3, 4] then 5 else 0,
    hash := fun p => p }

/-- The default similarity threshold 0.95. -/
def exThreshold : ℚ := Rat.divInt 95 100

/-- One insert of prompt "p" into a fresh 2-dimensional cache. -/
def sEx1 : SOAState := (SOAState.set envEx (SOAState.init 2 10 exThreshold) "p" "a" 0).2

/-- A second insert of the same prompt "p" with a different response. -/
def sEx2 : SOAState := (SOAState.set envEx sEx1 "p" "b" 1).2

/-- A cache holding a degenerate (zero-norm) slot for "z" and a regular
slot for "p". -/
def sDeg : SOAState :=
  (SOAState.set envDeg
    ((SOAState.set envDeg (SOAState.init 2 10 exThreshold) "z" "zr" 0).2) "p" "pr" 1).2

/-- Three inserts of the same prompt into a two-slot cache. -/
def sDup : SOAState :=
  applySets envEx (SOAState.init 2 2 exThreshold)
    [("p", "x", 0), ("p", "y", 1), ("p", "z", 2)]

/-! ## Bridge lemmas for the kernel-reducible rational operations -/

theorem qadd_eq (a b : ℚ) : qadd a b = a + b := by
  rw [qadd]
  conv_rhs => rw [← Rat.num_divInt_den a, ← Rat.num_divInt_den b]
  rw [Rat.divInt_add_divInt _ _ (by exact_mod_cast a.den_nz) (by exact_mod_cast b.den_nz)]

theorem qsub_eq (a b : ℚ) : qsub a b = a - b := by
  rw [qsub]
  conv_rhs => rw [← Rat.num_divInt_den a, ← Rat.num_divInt_den b]
  rw [Rat.divInt_sub_divInt _ _ (by exact_mod_cast a.den_nz) (by exact_mod_cast b.den_nz)]

theorem qmul_eq (a b : ℚ) : qmul a b = a * b := by
  rw [qmul]
  conv_rhs => rw [← Rat.num_divInt_den a, ← Rat.num_divInt_den b]
  rw [Rat.divInt_mul_divInt']

theorem qdiv_eq (a b : ℚ) : qdiv a b = a / b := by
  rw [qdiv]
  conv_rhs => rw [← Rat.num_divInt_den a, ← Rat.num_divInt_den b]
  rw [Rat.divInt_div_divInt]

theorem qmin_eq (a b : ℚ) : qmin a b = min a b := by
  rw [qmin, min_def]

theorem qmax_eq (a b : ℚ) : qmax a b = max a b := by
  unfold qmax
  split
  · exact (max_eq_left (by assumption)).symm
  · exact (max_eq_right (le_of_not_le (by assumption))).symm

/-! ## Guardrail lemmas and claims -/

/-- One category contributes at most `|kws| / 10` to the toxicity score. -/
theorem catScore_le (kws : List String) (tl : List Char) (n : Nat) (h : kws.length ≤ n) :
    qmul ((kws.filter (fun k => substrB k.toList tl)).length : ℚ) (Rat.divInt 1 10)
      ≤ (n : ℚ) / 10 := by
  rw [qmul_eq]
  have hc : ((kws.filter (fun k => substrB k.toList tl)).length : ℚ) ≤ (n : ℚ) := by
    exact_mod_cast le_trans (List.length_filter_le _ _) h
  have h10 : (Rat.divInt 1 10 : ℚ) = 1 / 10 := by rw [Rat.divInt_eq_div]; norm_num
  rw [h10]
  rw [div_eq_mul_inv (n : ℚ) 10]
  have : (0 : ℚ) ≤ 1 / 10 := by norm_num
  calc ((kws.filter (fun k => substrB k.toList tl)).length : ℚ) * (1 / 10)
      ≤ (n : ℚ) * (1 / 10) := by nlinarith
    _ = (n : ℚ) * (10 : ℚ)⁻¹ := by norm_num

/-- Every keyword category of `TOXIC_KEYWORDS` has at most four entries, so
`_score_toxicity` never exceeds 0.4. -/
theorem score_toxicity_le (r : String) : score_toxicity r ≤ Rat.divInt 2 5 := by
  unfold score_toxicity TOXIC_KEYWORDS
  simp only [List.foldl_cons, List.foldl_nil]
  rw [qmin_eq]
  refine le_trans (min_le_left _ _) ?_
  have h25 : (Rat.divInt 2 5 : ℚ) = (4 : ℚ) / 10 := by rw [Rat.divInt_eq_div]; norm_num
  rw [h25, qmax_eq, qmax_eq, qmax_eq, qmax_eq]
  simp only [max_le_iff]
  exact ⟨⟨⟨⟨by norm_num, catScore_le _ _ 4 (by norm_num)⟩, catScore_le _ _ 4 (by norm_num)⟩,
    catScore_le _ _ 4 (by norm_num)⟩, catScore_le _ _ 4 (by norm_num)⟩

/-- The toxicity threshold of the default configuration strictly exceeds the
largest attainable toxicity score. -/
theorem score_toxicity_lt_default_threshold (r : String) :
    ¬ (score_toxicity r > defaultConfig.toxicity_threshold) := by
  have h := score_toxicity_le r
  have h1 : (Rat.divInt 2 5 : ℚ) < Rat.divInt 7 10 := by
    rw [Rat.divInt_eq_div, Rat.divInt_eq_div]; norm_num
  intro hgt
  have : defaultConfig.toxicity_threshold < Rat.divInt 2 5 := lt_of_lt_of_le hgt h
  exact absurd (lt_trans this h1) (lt_irrefl _)

/-- The blocked flag of validate_output: injection, unmasked PII, secrets,
or an above-threshold toxicity score in strict mode — the XSS scan does not
appear. -/
theorem validate_output_blocked (cfg : GuardrailConfig) (p r : String)
    (ctx : Option (List String)) :
    (validate_output cfg p r ctx).blocked =
      (detect_injection p || (detect_pii r && !cfg.mask_pii) || scan_secrets r ||
        (decide (score_toxicity r > cfg.toxicity_threshold) && cfg.strict_mode)) := rfl

/-- When the XSS scan fires, its warning is in the result's warning list. -/
theorem validate_output_warns_xss (cfg : GuardrailConfig) (p r : String)
    (ctx : Option (List String)) (hx : scan_xss r = true) :
    "Potential XSS vectors in response" ∈ (validate_output cfg p r ctx).warnings := by
  simp only [validate_output, hx, if_true]
  split <;> simp [List.mem_append]

/-- C6: counterexample.  With the default (strict-mode) configuration, a
response containing a detected XSS vector is NOT blocked — validate_output
returns blocked = false, refuting the claim that strict mode blocks on XSS
detection. -/
theorem C6_counterexample :
    defaultConfig.strict_mode = true ∧
    scan_xss "<script>alert(1)</script>" = true ∧
    (validate_output defaultConfig "hi" "<script>alert(1)</script>" none).blocked = false :=
  ⟨rfl, by decide, by decide⟩

/-- C6 (amended): the XSS scan never contributes to blocking, in any mode;
it only appends the warning "Potential XSS vectors in response".  When the
prompt carries no injection pattern, the response carries no secret, PII is
either absent or masked, and the toxicity score does not exceed the
threshold in strict mode, validate_output returns blocked = false even when
an XSS vector is detected. -/
theorem C6_xss_never_blocks (cfg : GuardrailConfig) (p r : String)
    (ctx : Option (List String))
    (hinj : detect_injection p = false) (hsec : scan_secrets r = false)
    (hpii : detect_pii r = false ∨ cfg.mask_pii = true)
    (htox : ¬(score_toxicity r > cfg.toxicity_threshold ∧ cfg.strict_mode = true)) :
    (validate_output cfg p r ctx).blocked = false ∧
      (scan_xss r = true →
        "Potential XSS vectors in response" ∈ (validate_output cfg p r ctx).warnings) := by
  constructor
  · rw [validate_output_blocked, hinj, hsec]
    have h1 : (detect_pii r && !cfg.mask_pii) = false := by
      rcases hpii with h | h
      · rw [h]; rfl
      · rw [h]; simp
    have h2 : (decide (score_toxicity r > cfg.toxicity_threshold) && cfg.strict_mode)
        = false := by
      by_cases hgt : score_toxicity r > cfg.toxicity_threshold
      · have hs : cfg.strict_mode = false := by
          rcases Bool.eq_false_or_eq_true cfg.strict_mode with h | h
          · exact absurd ⟨hgt, h⟩ htox
          · exact h
        rw [hs]; simp
      · simp [hgt]
    rw [h1, h2]
    rfl
  · intro hx
    exact validate_output_warns_xss cfg p r ctx hx

/-- C6 witness: the amended theorem applied at the counterexample input. -/
theorem C6_witness :
    (validate_output defaultConfig "hi" "<script>alert(1)</script>" none).blocked = false ∧
      (scan_xss "<script>alert(1)</script>" = true →
        "Potential XSS vectors in response" ∈
          (validate_output defaultConfig "hi" "<script>alert(1)</script>" none).warnings) :=
  C6_xss_never_blocks defaultConfig "hi" "<script>alert(1)</script>" none (by decide)
    (by decide) (Or.inr rfl) (by decide)

/-- C7: the code evaluated at the failing input of the repository's own
red-team test.  The PII detector reports the ip_address pattern, masking is
configured, yet the returned response is the input unchanged: _mask_pii
substitutes emails, phones, SSNs and credit cards but not IP addresses, so
the detected IP survives verbatim. -/
theorem C7_ip_survives_masking :
    (validate_output defaultConfig "contact info" "Server IP: 192.168.1.100" none).pii_leakage
        = true ∧
    reSearch PII_ip "Server IP: 192.168.1.100".toList = true ∧
    (validate_output defaultConfig "contact info" "Server IP: 192.168.1.100" none).blocked
        = false ∧
    (validate_output defaultConfig "contact info" "Server IP: 192.168.1.100" none).response
        = "Server IP: 192.168.1.100" :=
  ⟨by decide, by decide, by decide, by decide⟩

/-- C10: the toxicity score is at most 0.4 for every response (each category
holds at most four keywords at 0.1 each, and the total is the category
maximum), so the default threshold 0.7 is unreachable and a blocked result
under the default configuration always has another cause: a prompt
injection or a leaked secret (PII cannot block since mask_pii defaults to
true). -/
theorem C10_toxicity_block_unreachable (p r : String) (ctx : Option (List String)) :
    score_toxicity r ≤ Rat.divInt 2 5 ∧
    ¬(score_toxicity r > defaultConfig.toxicity_threshold) ∧
    ((validate_output defaultConfig p r ctx).blocked = true →
      detect_injection p = true ∨ scan_secrets r = true) := by
  refine ⟨score_toxicity_le r, score_toxicity_lt_default_threshold r, ?_⟩
  intro hb
  rw [validate_output_blocked] at hb
  have htox : decide (score_toxicity r > defaultConfig.toxicity_threshold) = false :=
    decide_eq_false (score_toxicity_lt_default_threshold r)
  rw [htox] at hb
  have hmask : (detect_pii r && !defaultConfig.mask_pii) = false := by
    show (detect_pii r && !true) = false
    simp
  rw [hmask] at hb
  simp only [Bool.or_false, Bool.and_false, Bool.false_and, Bool.false_or] at hb
  exact (Bool.or_eq_true _ _).mp hb

/-- C10 witness: at a prompt matching an injection pattern the blocking
implication fires and names an actual cause. -/
theorem C10_witness :
    (validate_output defaultConfig "jailbreak" "ok" none).blocked = true ∧
    (detect_injection "jailbreak" = true ∨ scan_secrets "ok" = true) :=
  ⟨by decide, (C10_toxicity_block_unreachable "jailbreak" "ok" none).2.2 (by decide)⟩

/-! ## Regex-engine lemmas: patterns that must consume a first character
match nothing on strings without such characters. -/

theorem run_assert {a : RE} (h : IsAssert a) (prev : Option Char) (s : List Char) :
    ∀ res ∈ RE.run a prev s, res = (prev, s) := by
  intro res hres
  cases h with
  | eps => simpa [RE.run] using hres
  | wordB =>
    simp only [RE.run] at hres
    split at hres
    · simpa using hres
    · simp at hres
  | lineStart =>
    simp only [RE.run] at hres
    split at hres
    · simpa using hres
    · simp at hres
  | lineEnd =>
    simp only [RE.run] at hres
    split at hres
    · simpa using hres
    · simp at hres

theorem run_nil_of_needsHead {r : RE} {p : Char → Bool} (h : NeedsHead r p) :
    ∀ (prev : Option Char) (s : List Char),
      (∀ c, s.head? = some c → p c = false) → RE.run r prev s = [] := by
  induction h with
  | cls q =>
    intro prev s hs
    cases s with
    | nil => rfl
    | cons c rest => simp [RE.run, hs c rfl]
  | seqL b hh ih =>
    intro prev s hs
    simp [RE.run, ih prev s hs]
  | seqA ha hh ih =>
    intro prev s hs
    simp only [RE.run]
    rw [List.flatMap_eq_nil_iff]
    intro pr hpr
    rw [run_assert ha prev s pr hpr]
    exact ih prev s hs

theorem searchAux_false_of_needsHead {r : RE} {p : Char → Bool} (h : NeedsHead r p) :
    ∀ (s : List Char), (∀ c ∈ s, p c = false) → ∀ prev, searchAux r prev s = false := by
  intro s
  induction s with
  | nil =>
    intro _ prev
    rw [searchAux, run_nil_of_needsHead h prev [] (by intro c hc; simp at hc)]
    rfl
  | cons c rest ih =>
    intro hs prev
    rw [searchAux,
        run_nil_of_needsHead h prev (c :: rest)
          (by intro d hd; simp at hd; rw [← hd]; exact hs c (by simp))]
    simp only [List.isEmpty_nil, Bool.not_true, Bool.false_or]
    exact ih (fun d hd => hs d (List.mem_cons_of_mem _ hd)) (some c)

theorem subAux_id_of_searchAux_false (r : RE) (repl : List Char → List Char) :
    ∀ (fuel : Nat) (prev : Option Char) (s : List Char),
      searchAux r prev s = false → subAux r repl fuel prev s = s := by
  intro fuel
  induction fuel with
  | zero => intro prev s _; rfl
  | succ n ih =>
    intro prev s hfalse
    have hrun : RE.run r prev s = [] := by
      cases s with
      | nil =>
        rw [searchAux] at hfalse
        simpa [List.isEmpty_iff] using hfalse
      | cons c rest =>
        rw [searchAux] at hfalse
        have h1 := (Bool.or_eq_false_iff.mp hfalse).1
        simpa [List.isEmpty_iff] using h1
    cases s with
    | nil => simp [subAux, hrun]
    | cons c rest =>
      have htail : searchAux r (some c) rest = false := by
        rw [searchAux] at hfalse
        exact (Bool.or_eq_false_iff.mp hfalse).2
      simp only [subAux, hrun, List.head?]
      rw [ih (some c) rest htail]

theorem reSub_id_of_not_search (r : RE) (repl : List Char → List Char) (s : List Char)
    (h : searchAux r none s = false) : reSub r repl s = s :=
  subAux_id_of_searchAux_false r repl _ none s h

/-- A pattern whose every match starts with a character of class `p` leaves
any text over an alphabet avoiding `p` unchanged under re.sub. -/
theorem reSub_id_on_alphabet {P : RE} {p : Char → Bool} (hP : NeedsHead P p)
    {alphabet : List Char} (hp : ∀ c ∈ alphabet, p c = false)
    (repl : List Char → List Char) (t : List Char) (ht : ∀ c ∈ t, c ∈ alphabet) :
    reSub P repl t = t :=
  reSub_id_of_not_search P repl t
    (searchAux_false_of_needsHead hP t (fun c hc => hp c (ht c hc)) none)

/-! ## The output filter is the identity on plain lowercase text -/

theorem needsHead_thinkBlock : NeedsHead thinkBlockRE (ciClass '<') :=
  NeedsHead.seqL _ (NeedsHead.seqL _ (NeedsHead.cls _))

theorem needsHead_thinkOrphan : NeedsHead thinkOrphanRE (ciClass '<') :=
  NeedsHead.seqL _ (NeedsHead.seqL _ (NeedsHead.cls _))

theorem needsHead_para1 :
    NeedsHead (seqAll [RE.cls punctC, ws1, RE.cls (fun c => c.isUpper)]) punctC :=
  NeedsHead.seqL _ (NeedsHead.cls _)

theorem needsHead_para2 : NeedsHead (seqAll [plusC digitC, lit ".", ws1]) digitC :=
  NeedsHead.seqL _ (NeedsHead.seqL _ (NeedsHead.cls _))

theorem needsHead_para3 : NeedsHead (seqAll [RE.cls bulletC, ws1]) bulletC :=
  NeedsHead.seqL _ (NeedsHead.cls _)

theorem needsHead_spaces : NeedsHead (plusC (fun c => c = ' ')) (fun c => c = ' ') :=
  NeedsHead.seqL _ (NeedsHead.cls _)

theorem needsHead_newlines :
    NeedsHead (seqAll [RE.cls (fun c => c = '\n'), RE.cls (fun c => c = '\n'),
      plusC (fun c => c = '\n')]) (fun c => c = '\n') :=
  NeedsHead.seqL _ (NeedsHead.cls _)

theorem needsHead_header : NeedsHead headerRE (fun c => c = '#') :=
  NeedsHead.seqA IsAssert.lineStart
    (NeedsHead.seqL _ (NeedsHead.seqL _ (NeedsHead.seqL _ (NeedsHead.cls _))))

theorem needsHead_fence : NeedsHead fenceRE (fun x => x = Char.ofNat 96) :=
  NeedsHead.seqL _ (NeedsHead.seqL _ (NeedsHead.cls _))

theorem clean_thinking_tags_id_on_lc (t : List Char) (ht : ∀ c ∈ t, c ∈ lcChars) :
    clean_thinking_tags t = t := by
  unfold clean_thinking_tags
  rw [reSub_id_on_alphabet needsHead_thinkBlock (by decide) _ t ht,
      reSub_id_on_alphabet needsHead_thinkOrphan (by decide) _ t ht]

theorem splitDS_no_dot : ∀ (t : List Char), (∀ c ∈ t, c = '.' → False) → splitDS t = [t]
  | [], _ => rfl
  | [_], _ => rfl
  | c :: d :: rest, h => by
    rw [splitDS, if_neg (fun hcd => h c (by simp) hcd.1),
        splitDS_no_dot (d :: rest) (fun e he => h e (List.mem_cons_of_mem _ he))]
    rfl

theorem dropWhile_eq_self_of (p : Char → Bool) (t : List Char)
    (h : ∀ c ∈ t, p c = false) : t.dropWhile p = t := by
  cases t with
  | nil => rfl
  | cons c rest => simp [List.dropWhile_cons, h c (List.mem_cons_self c rest)]

theorem stripChars_id (t : List Char) (h : ∀ c ∈ t, wsp c = false) :
    stripChars t = t := by
  unfold stripChars
  rw [dropWhile_eq_self_of wsp t h,
      dropWhile_eq_self_of wsp t.reverse (fun c hc => h c (List.mem_reverse.mp hc)),
      List.reverse_reverse]

theorem remove_repetitions_id_on_lc (t : List Char) (ht : ∀ c ∈ t, c ∈ lcChars)
    (hne : t ≠ []) : remove_repetitions t = t := by
  unfold remove_repetitions
  have hdot : ∀ c ∈ t, c = '.' → False := by
    intro c hc heq
    have := ht c hc
    rw [heq] at this
    simp [lcChars] at this
  have hws : ∀ c ∈ t, wsp c = false := fun c hc =>
    (by decide : ∀ c ∈ lcChars, wsp c = false) c (ht c hc)
  rw [splitDS_no_dot t hdot]
  rw [dedupeSentences, stripChars_id t hws]
  simp [hne, dedupeSentences, List.intercalate]

theorem format_paragraphs_id_on_lc (t : List Char) (ht : ∀ c ∈ t, c ∈ lcChars) :
    format_paragraphs t = t := by
  show reSub (seqAll [RE.cls bulletC, ws1]) paraRepl3
      (reSub (seqAll [plusC digitC, lit ".", ws1]) paraRepl2
        (reSub (seqAll [RE.cls punctC, ws1, RE.cls (fun c => c.isUpper)]) paraRepl1 t)) = t
  rw [reSub_id_on_alphabet needsHead_para1 (by decide) _ t ht,
      reSub_id_on_alphabet needsHead_para2 (by decide) _ t ht,
      reSub_id_on_alphabet needsHead_para3 (by decide) _ t ht]

theorem clean_whitespace_id_on_lc (t : List Char) (ht : ∀ c ∈ t, c ∈ lcChars) :
    clean_whitespace t = t := by
  show stripChars
      (reSub (seqAll [RE.cls (fun c => c = '\n'), RE.cls (fun c => c = '\n'),
          plusC (fun c => c = '\n')]) (fun _ => ['\n', '\n'])
        (reSub (plusC (fun c => c = ' ')) (fun _ => [' ']) t)) = t
  rw [reSub_id_on_alphabet needsHead_spaces (by decide) _ t ht,
      reSub_id_on_alphabet needsHead_newlines (by decide) _ t ht]
  exact stripChars_id t (fun c hc =>
    (by decide : ∀ c ∈ lcChars, wsp c = false) c (ht c hc))

theorem format_markdown_id_on_lc (t : List Char) (ht : ∀ c ∈ t, c ∈ lcChars) :
    format_markdown t = t := by
  unfold format_markdown
  rw [reSub_id_on_alphabet needsHead_header (by decide) _ t ht]
  rw [reSub_id_on_alphabet needsHead_fence (by decide) _ t ht]

/-- On nonmarkup lowercase text each pipeline stage is the identity, so the
whole filter is. -/
theorem format_response_id_on_lc (s : String) (h : ∀ c ∈ s.toList, c ∈ lcChars) :
    format_response s = s := by
  unfold format_response
  by_cases he : s.isEmpty
  · rw [if_pos he]
    exact ((String.isEmpty_iff s).mp he).symm
  · rw [if_neg he]
    have hne : s.toList ≠ [] := by
      intro hnil
      cases s with
      | mk data =>
        simp only [String.toList] at hnil
        rw [hnil] at he
        exact he rfl
    rw [clean_thinking_tags_id_on_lc _ h, remove_repetitions_id_on_lc _ h hne,
        format_paragraphs_id_on_lc _ h, clean_whitespace_id_on_lc _ h,
        format_markdown_id_on_lc _ h]
    cases s with
    | mk data => rfl

/-- C8: counterexample.  The filter is not idempotent: format_paragraphs
re-fires on its own output, so the second application of format_response
inserts an extra line break before the bullet marker of "a - b"
(format_response "a - b" = "a \n- b" but applying it again yields
"a \n\n- b"). -/
theorem C8_counterexample :
    format_response (format_response "a - b") ≠ format_response "a - b" := by decide

/-- C8 (amended): format_response is not idempotent in general — a second
application can insert an additional line break before a bullet or numbered
list marker — but on inputs over the plain lowercase alphabet (no markup,
list markers, digits, sentence punctuation, whitespace or capitals, where
every pipeline stage acts as the identity) it is idempotent. -/
theorem C8_idempotent_on_plain_text (s : String) (h : ∀ c ∈ s.toList, c ∈ lcChars) :
    format_response (format_response s) = format_response s := by
  rw [format_response_id_on_lc s h, format_response_id_on_lc s h]

/-- C8 witness: the amended idempotence at a concrete plain input. -/
theorem C8_witness :
    format_response (format_response "hello") = format_response "hello" :=
  C8_idempotent_on_plain_text "hello" (by decide)

/-! ## Batcher grouping lemmas -/

theorem keysInOrder_eq_keysFrom (batch : List BatchRequest) :
    keysInOrder batch = keysFrom [] batch := rfl

theorem keysFrom_nodup (batch : List BatchRequest) :
    ∀ ks : List (Int × ℚ × ℚ), ks.Nodup → (keysFrom ks batch).Nodup := by
  induction batch with
  | nil => intro ks h; exact h
  | cons r rest ih =>
    intro ks h
    simp only [keysFrom, List.foldl_cons]
    apply ih
    by_cases hm : groupKey r ∈ ks
    · simpa [hm] using h
    · simp only [hm, if_neg, if_false]
      simp [List.nodup_append, h, hm]

theorem keysFrom_mem (batch : List BatchRequest) :
    ∀ (ks : List (Int × ℚ × ℚ)) (k : Int × ℚ × ℚ),
      k ∈ keysFrom ks batch ↔ k ∈ ks ∨ ∃ r ∈ batch, groupKey r = k := by
  induction batch with
  | nil => intro ks k; simp [keysFrom]
  | cons r rest ih =>
    intro ks k
    simp only [keysFrom, List.foldl_cons]
    rw [show (rest.foldl (fun acc q => if groupKey q ∈ acc then acc else acc ++ [groupKey q])
          (if groupKey r ∈ ks then ks else ks ++ [groupKey r])) =
        keysFrom (if groupKey r ∈ ks then ks else ks ++ [groupKey r]) rest from rfl]
    rw [ih]
    by_cases hm : groupKey r ∈ ks
    · simp only [hm, if_true]
      constructor
      · rintro (h | h)
        · exact Or.inl h
        · exact Or.inr (by rcases h with ⟨q, hq, hk⟩; exact ⟨q, List.mem_cons_of_mem _ hq, hk⟩)
      · rintro (h | ⟨q, hq, hk⟩)
        · exact Or.inl h
        · rcases List.mem_cons.mp hq with rfl | hq'
          · exact Or.inl (hk ▸ hm)
          · exact Or.inr ⟨q, hq', hk⟩
    · simp only [hm, if_false]
      constructor
      · rintro (h | h)
        · rcases List.mem_append.mp h with h' | h'
          · exact Or.inl h'
          · simp at h'
            exact Or.inr ⟨r, List.mem_cons_self _ _, h'.symm⟩
        · exact Or.inr (by rcases h with ⟨q, hq, hk⟩; exact ⟨q, List.mem_cons_of_mem _ hq, hk⟩)
      · rintro (h | ⟨q, hq, hk⟩)
        · exact Or.inl (List.mem_append_left _ h)
        · rcases List.mem_cons.mp hq with rfl | hq'
          · exact Or.inl (List.mem_append_right _ (by simp [hk]))
          · exact Or.inr ⟨q, hq', hk⟩

theorem canonGroups_append_irrelevant (l : List BatchRequest) (r : BatchRequest)
    (ks : List (Int × ℚ × ℚ)) (h : ∀ k ∈ ks, groupKey r ≠ k) :
    canonGroups (l ++ [r]) ks = canonGroups l ks := by
  unfold canonGroups
  apply List.map_congr_left
  intro k hk
  rw [List.filter_append]
  have : [r].filter (fun q => groupKey q = k) = [] := by
    simp [List.filter, h k hk]
  rw [this, List.append_nil]

theorem insertGrouped_canon (l : List BatchRequest) (r : BatchRequest) :
    ∀ (ks : List (Int × ℚ × ℚ)), ks.Nodup →
      (groupKey r ∈ ks ∨ l.filter (fun q => groupKey q = groupKey r) = []) →
      insertGrouped (canonGroups l ks) r =
        canonGroups (l ++ [r]) (if groupKey r ∈ ks then ks else ks ++ [groupKey r]) := by
  intro ks
  induction ks with
  | nil =>
    intro _ h
    have hf : l.filter (fun q => groupKey q = groupKey r) = [] := by
      rcases h with h | h
      · simp at h
      · exact h
    simp only [List.not_mem_nil, if_false, List.nil_append]
    show insertGrouped [] r = canonGroups (l ++ [r]) [groupKey r]
    unfold insertGrouped canonGroups
    simp [List.filter_append, hf]
  | cons k ks' ih =>
    intro hnd h
    simp only [canonGroups, List.map_cons]
    rw [insertGrouped]
    by_cases hk : k = groupKey r
    · rw [if_pos hk]
      have hmem : groupKey r ∈ k :: ks' := by rw [hk]; exact List.mem_cons_self _ _
      rw [if_pos hmem]
      simp only [canonGroups, List.map_cons]
      have hb : (l ++ [r]).filter (fun q => groupKey q = k) =
          l.filter (fun q => groupKey q = k) ++ [r] := by
        rw [List.filter_append]
        simp [List.filter, hk.symm]
      have ht : ks'.map (fun k' => (k', (l ++ [r]).filter (fun q => groupKey q = k'))) =
          ks'.map (fun k' => (k', l.filter (fun q => groupKey q = k'))) := by
        have := canonGroups_append_irrelevant l r ks'
          (fun k' hk' heq => (List.nodup_cons.mp hnd).1 (by rw [hk, heq]; exact hk'))
        simpa [canonGroups] using this
      rw [hb, ht]
    · rw [if_neg hk]
      have hcond : groupKey r ∈ ks' ∨ l.filter (fun q => groupKey q = groupKey r) = [] := by
        rcases h with h | h
        · rcases List.mem_cons.mp h with heq | h'
          · exact absurd heq.symm hk
          · exact Or.inl h'
        · exact Or.inr h
      have ihr := ih (List.nodup_cons.mp hnd).2 hcond
      rw [show insertGrouped (ks'.map (fun k' => (k', l.filter (fun q => groupKey q = k')))) r
            = insertGrouped (canonGroups l ks') r from rfl, ihr]
      have hmem : (groupKey r ∈ k :: ks') ↔ (groupKey r ∈ ks') := by
        constructor
        · intro hc
          rcases List.mem_cons.mp hc with heq | h'
          · exact absurd heq.symm hk
          · exact h'
        · exact fun h' => List.mem_cons_of_mem _ h'
      have hbk : (l ++ [r]).filter (fun q => groupKey q = k) =
          l.filter (fun q => groupKey q = k) := by
        rw [List.filter_append]
        have hz : [r].filter (fun q => groupKey q = k) = [] := by
          simp only [List.filter]
          rw [decide_eq_false (fun heq => hk heq.symm)]
        rw [hz, List.append_nil]
      by_cases hm : groupKey r ∈ ks'
      · rw [if_pos hm, if_pos (hmem.mpr hm)]
        simp only [canonGroups, List.map_cons, hbk]
      · rw [if_neg hm, if_neg (fun hc => hm (hmem.mp hc))]
        simp only [canonGroups, List.cons_append, List.map_cons, hbk]

theorem foldl_insertGrouped_canon (batch : List BatchRequest) :
    ∀ (l : List BatchRequest) (ks : List (Int × ℚ × ℚ)), ks.Nodup →
      (∀ q ∈ l, groupKey q ∈ ks) →
      batch.foldl insertGrouped (canonGroups l ks) =
        canonGroups (l ++ batch) (keysFrom ks batch) := by
  induction batch with
  | nil => intro l ks _ _; simp [keysFrom]
  | cons r rest ih =>
    intro l ks hnd hcomp
    simp only [List.foldl_cons]
    have hcond : groupKey r ∈ ks ∨ l.filter (fun q => groupKey q = groupKey r) = [] := by
      by_cases hm : groupKey r ∈ ks
      · exact Or.inl hm
      · right
        rw [List.filter_eq_nil_iff]
        intro q hq
        simp only [decide_eq_true_eq]
        intro heq
        exact hm (heq ▸ hcomp q hq)
    rw [insertGrouped_canon l r ks hnd hcond]
    have hnd' : (if groupKey r ∈ ks then ks else ks ++ [groupKey r]).Nodup := by
      by_cases hm : groupKey r ∈ ks
      · simpa [hm] using hnd
      · simp [hm, List.nodup_append, hnd]
    have hcomp' : ∀ q ∈ l ++ [r],
        groupKey q ∈ (if groupKey r ∈ ks then ks else ks ++ [groupKey r]) := by
      intro q hq
      rcases List.mem_append.mp hq with hq' | hq'
      · by_cases hm : groupKey r ∈ ks
        · simpa [hm] using hcomp q hq'
        · simp only [hm, if_false]
          exact List.mem_append_left _ (hcomp q hq')
      · have hq2 : q = r := by simpa using hq'
        rw [hq2]
        by_cases hm : groupKey r ∈ ks
        · simp [hm]
        · simp [hm]
    rw [ih (l ++ [r]) _ hnd' hcomp']
    rw [List.append_assoc]
    rfl

/-- C9: _group_by_params is the canonical key-indexed partition: the bucket
list equals, bucket for bucket, the arrival-ordered filter of the batch by
each distinct key (keys in first-occurrence order); the key list has no
duplicates and covers every request, and no bucket is empty.  Hence two
requests land in the same bucket exactly when their (max_tokens,
temperature, top_p) triples are equal, and each bucket preserves arrival
order. -/
theorem C9_grouping_partition (batch : List BatchRequest) :
    group_by_params batch =
      (keysInOrder batch).map (fun k => batch.filter (fun r => groupKey r = k)) ∧
    (keysInOrder batch).Nodup ∧
    (∀ r ∈ batch, groupKey r ∈ keysInOrder batch) ∧
    (∀ g ∈ group_by_params batch, g ≠ []) := by
  have hmain : batch.foldl insertGrouped [] = canonGroups batch (keysInOrder batch) := by
    have := foldl_insertGrouped_canon batch [] [] (List.nodup_nil) (by intro q hq; simp at hq)
    simpa [canonGroups, keysInOrder_eq_keysFrom] using this
  have h1 : group_by_params batch =
      (keysInOrder batch).map (fun k => batch.filter (fun r => groupKey r = k)) := by
    unfold group_by_params
    rw [hmain]
    unfold canonGroups
    rw [List.map_map]
    rfl
  refine ⟨h1, keysFrom_nodup batch [] List.nodup_nil, ?_, ?_⟩
  · intro r hr
    rw [keysInOrder_eq_keysFrom, keysFrom_mem]
    exact Or.inr ⟨r, hr, rfl⟩
  · intro g hg
    rw [h1] at hg
    rcases List.mem_map.mp hg with ⟨k, hk, rfl⟩
    rw [keysInOrder_eq_keysFrom, keysFrom_mem] at hk
    rcases hk with h | ⟨r, hr, hkr⟩
    · simp at h
    · intro hnil
      have : r ∈ batch.filter (fun q => groupKey q = k) :=
        List.mem_filter.mpr ⟨hr, by simp [hkr]⟩
      rw [hnil] at this
      simp at this

/-- C9 witness: the grouping at a concrete three-request batch whose first and
third requests share the parameter triple, with the covering conjunct of the
partition theorem applied to the first request. -/
theorem C9_witness :
    group_by_params
        ([⟨"1", "a", 16, 1, 1⟩, ⟨"2", "b", 32, 1, 1⟩, ⟨"3", "c", 16, 1, 1⟩] :
          List BatchRequest) =
      [[⟨"1", "a", 16, 1, 1⟩, ⟨"3", "c", 16, 1, 1⟩], [⟨"2", "b", 32, 1, 1⟩]] ∧
    groupKey (⟨"1", "a", 16, 1, 1⟩ : BatchRequest) ∈
      keysInOrder ([⟨"1", "a", 16, 1, 1⟩, ⟨"2", "b", 32, 1, 1⟩, ⟨"3", "c", 16, 1, 1⟩] :
        List BatchRequest) :=
  ⟨by decide,
   (C9_grouping_partition
       [⟨"1", "a", 16, 1, 1⟩, ⟨"2", "b", 32, 1, 1⟩, ⟨"3", "c", 16, 1, 1⟩]).2.2.1
     ⟨"1", "a", 16, 1, 1⟩ (by simp)⟩

/-! ## Cache lemmas -/

theorem eps8_pos : (0 : ℚ) < eps8 := by
  unfold eps8
  rw [Rat.divInt_eq_div]
  norm_num

theorem eps5_pos : (0 : ℚ) < Rat.divInt 1 100000 := by
  rw [Rat.divInt_eq_div]
  norm_num

theorem argmaxAux_const {v : ℚ} : ∀ (rest : List ℚ) (k bi : Nat),
    (∀ x ∈ rest, x < v) → argmaxAux rest k bi v = bi
  | [], _, _, _ => rfl
  | x :: rest, k, bi, h => by
    rw [argmaxAux, if_neg (not_lt.mpr (le_of_lt (h x (List.mem_cons_self x rest))))]
    exact argmaxAux_const rest (k + 1) bi (fun y hy => h y (List.mem_cons_of_mem _ hy))

theorem argmaxAux_find {v : ℚ} : ∀ (pre post : List ℚ) (k bi : Nat) (bv : ℚ),
    (∀ x ∈ pre, x < v) → (∀ x ∈ post, x < v) → bv < v →
    argmaxAux (pre ++ v :: post) k bi bv = k + pre.length
  | [], post, k, bi, bv, _, hpost, hbv => by
    simp only [List.nil_append, argmaxAux, List.length_nil, Nat.add_zero]
    rw [if_pos hbv]
    exact argmaxAux_const post (k + 1) k hpost
  | x :: pre, post, k, bi, bv, hpre, hpost, hbv => by
    simp only [List.cons_append, List.append_eq, argmaxAux, List.length_cons]
    have hx : x < v := hpre x (List.mem_cons_self x pre)
    have hpre' : ∀ y ∈ pre, y < v := fun y hy => hpre y (List.mem_cons_of_mem _ hy)
    by_cases hgt : x > bv
    · rw [if_pos hgt, argmaxAux_find pre post (k + 1) k x hpre' hpost hx]
      omega
    · rw [if_neg hgt, argmaxAux_find pre post (k + 1) bi bv hpre' hpost hbv]
      omega

theorem argmaxAux_lt : ∀ (rest : List ℚ) (k bi : Nat) (bv : ℚ), bi < k →
    argmaxAux rest k bi bv < k + rest.length
  | [], _, _, _, h => by simpa using h
  | x :: rest, k, bi, bv, h => by
    rw [argmaxAux]
    by_cases hx : x > bv
    · rw [if_pos hx]
      have := argmaxAux_lt rest (k + 1) k x (by omega)
      simpa [Nat.add_comm, Nat.add_assoc, Nat.add_left_comm] using by omega
    · rw [if_neg hx]
      have := argmaxAux_lt rest (k + 1) bi bv (by omega)
      simp only [List.length_cons]
      omega

theorem argmaxIdx_lt (l : List ℚ) (h : l ≠ []) : argmaxIdx l < l.length := by
  cases l with
  | nil => exact absurd rfl h
  | cons x rest =>
    rw [argmaxIdx]
    have := argmaxAux_lt rest 1 0 x (by omega)
    simp only [List.length_cons]
    omega

theorem argmaxIdx_spec (l : List ℚ) (i : Nat) (v : ℚ) (hi : i < l.length)
    (hv : l.getD i 0 = v)
    (hothers : ∀ j, j < l.length → j ≠ i → l.getD j 0 < v) :
    argmaxIdx l = i := by
  have hdec : l = l.take i ++ v :: l.drop (i + 1) := by
    conv_lhs => rw [← List.take_append_drop i l]
    rw [List.drop_eq_getElem_cons hi]
    rw [List.getD_eq_getElem l 0 hi] at hv
    rw [hv]
  have hlenpre : (l.take i).length = i := List.length_take_of_le (le_of_lt hi)
  have hpre : ∀ x ∈ l.take i, x < v := by
    intro x hx
    rcases List.mem_iff_getElem.mp hx with ⟨j, hj, hget⟩
    have hj' : j < i := by
      have := hj
      rw [hlenpre] at this
      exact this
    have hjl : j < l.length := lt_trans hj' hi
    have : l.getD j 0 = x := by
      rw [List.getD_eq_getElem l 0 hjl, ← hget, List.getElem_take]
    rw [← this]
    exact hothers j hjl (by omega)
  have hpost : ∀ x ∈ l.drop (i + 1), x < v := by
    intro x hx
    rcases List.mem_iff_getElem.mp hx with ⟨j, hj, hget⟩
    have hjl : i + 1 + j < l.length := by
      have := hj
      rw [List.length_drop] at this
      omega
    have : l.getD (i + 1 + j) 0 = x := by
      rw [List.getD_eq_getElem l 0 hjl, ← hget, List.getElem_drop]
    rw [← this]
    exact hothers (i + 1 + j) hjl (by omega)
  cases hpre' : l.take i with
  | nil =>
    have hi0 : i = 0 := by
      rw [hpre', List.length_nil] at hlenpre
      omega
    subst hi0
    rw [hdec, hpre']
    simp only [List.nil_append, argmaxIdx]
    exact argmaxAux_const (l.drop (0 + 1)) 1 0 hpost
  | cons x pre' =>
    rw [hdec, hpre']
    simp only [List.cons_append, argmaxIdx]
    have hx : x < v := hpre x (by rw [hpre']; exact List.mem_cons_self _ _)
    have hpre'' : ∀ y ∈ pre', y < v := fun y hy =>
      hpre y (by rw [hpre']; exact List.mem_cons_of_mem _ hy)
    rw [argmaxAux_find pre' (l.drop (i + 1)) 1 0 x hpre'' hpost hx]
    have : (x :: pre').length = i := by rw [← hpre']; exact hlenpre
    simp only [List.length_cons] at this
    omega

theorem compute_similarities_length (env : CacheEnv) (s : SOAState) (q : List ℚ)
    (hn : s.n_entries ≠ 0) :
    (compute_similarities env s q).length = s.n_entries := by
  unfold compute_similarities
  rw [if_neg hn, List.length_map, List.length_range]

theorem compute_similarities_getD (env : CacheEnv) (s : SOAState) (q : List ℚ)
    (hn : s.n_entries ≠ 0) (j : Nat) (hj : j < s.n_entries) :
    (compute_similarities env s q).getD j 0 = simAt env s q j := by
  unfold compute_similarities
  rw [if_neg hn]
  have hjl : j < ((List.range s.n_entries).map (simAt env s q)).length := by
    rw [List.length_map, List.length_range]
    exact hj
  rw [List.getD_eq_getElem _ 0 hjl, List.getElem_map, List.getElem_range]

theorem foldl_fst_lt {f : (Nat × Option ℚ) → Nat → (Nat × Option ℚ)} (n : Nat)
    (hf : ∀ acc i, (f acc i).1 = acc.1 ∨ (f acc i).1 = i) :
    ∀ (l : List Nat) (acc : Nat × Option ℚ), acc.1 < n → (∀ i ∈ l, i < n) →
      (l.foldl f acc).1 < n
  | [], _, hacc, _ => hacc
  | i :: rest, acc, hacc, hl => by
    rw [List.foldl_cons]
    refine foldl_fst_lt n hf rest (f acc i) ?_
      (fun j hj => hl j (List.mem_cons_of_mem _ hj))
    rcases hf acc i with h | h
    · rw [h]; exact hacc
    · rw [h]; exact hl i (List.mem_cons_self _ _)

theorem find_eviction_candidate_lt (s : SOAState) (h : 0 < s.n_entries) :
    find_eviction_candidate s < s.n_entries := by
  unfold find_eviction_candidate
  refine foldl_fst_lt s.n_entries ?_ (List.range s.n_entries) ((0 : Nat), (none : Option ℚ))
    h (fun i hi => List.mem_range.mp hi)
  intro acc i
  cases hei : s.entries i with
  | none => simp [hei]
  | some e =>
    simp only [hei]
    cases hacc2 : acc.2 with
    | none => simp
    | some b =>
      simp only [hacc2]
      split
      · simp
      · simp

theorem setIndex_lt_n (env : CacheEnv) (s : SOAState) (p r : String) (t : ℚ)
    (hmax : 0 < s.max_entries) :
    setIndex s < (SOAState.set env s p r t).2.n_entries := by
  show setIndex s < (if s.n_entries ≥ s.max_entries then s.n_entries else s.n_entries + 1)
  unfold setIndex
  by_cases hfull : s.n_entries ≥ s.max_entries
  · rw [if_pos hfull, if_pos hfull]
    exact find_eviction_candidate_lt s (lt_of_lt_of_le hmax hfull)
  · rw [if_neg hfull, if_neg hfull]
    omega

theorem get_eq (env : CacheEnv) (s : SOAState) (prompt : String)
    (hn : s.n_entries ≠ 0) :
    SOAState.get env s prompt =
      (let sims := compute_similarities env s (env.emb prompt)
       let bestIdx := argmaxIdx sims
       let best := sims.getD bestIdx 0
       if best ≥ s.similarity_threshold then
         match s.entries bestIdx with
         | some e =>
           ((some e.response, best),
            { s with
               entries :=
                 Function.update s.entries bestIdx
                   (some { e with hit_count := e.hit_count + 1 }),
               total_hits := s.total_hits + 1 })
         | none => ((none, best), { s with total_misses := s.total_misses + 1 })
       else ((none, best), { s with total_misses := s.total_misses + 1 })) := by
  unfold SOAState.get
  rw [if_neg hn]

/-- C1: counterexample.  set never deduplicates: two inserts of the same
prompt occupy two slots with similarity 1, and np.argmax takes the first,
so immediately after set("p", "b") the lookup returns the OLDER response
"a" (with similarity 1.0), not the response just stored. -/
theorem C1_counterexample :
    (SOAState.get envEx sEx2 "p").1 = (some "a", 1) ∧
    (SOAState.get envEx sEx2 "p").1 ≠ (some "b", 1) :=
  ⟨by decide, by decide⟩

/-- C1 (amended): immediately after set(p, r), get(p) returns (r, 1.0)
provided max_entries is positive, the stored norm oracle is consistent on
p's embedding and above the 1e-8 guard, the hit threshold is at most 1, and
no other occupied slot attains cosine similarity 1 against p's embedding —
in particular p must not already be cached, as the counterexample shows. -/
theorem C1_hit_after_set (env : CacheEnv) (s : SOAState) (p r : String) (t : ℚ)
    (hmax : 0 < s.max_entries)
    (hθ : s.similarity_threshold ≤ 1)
    (hnrm : qmul (env.nrm (env.emb p)) (env.nrm (env.emb p)) = dotQ (env.emb p) (env.emb p))
    (hpos : env.nrm (env.emb p) > eps8)
    (hothers : ∀ j, j < (SOAState.set env s p r t).2.n_entries → j ≠ setIndex s →
        simAt env (SOAState.set env s p r t).2 (env.emb p) j < 1) :
    (SOAState.get env (SOAState.set env s p r t).2 p).1 = (some r, 1) := by
  have hlt : setIndex s < (SOAState.set env s p r t).2.n_entries :=
    setIndex_lt_n env s p r t hmax
  have hn0 : (SOAState.set env s p r t).2.n_entries ≠ 0 := by omega
  have hnorms : (SOAState.set env s p r t).2.norms (setIndex s) = env.nrm (env.emb p) :=
    Function.update_same _ _ _
  have hembs : (SOAState.set env s p r t).2.embeddings (setIndex s) = env.emb p :=
    Function.update_same _ _ _
  have hent : (SOAState.set env s p r t).2.entries (setIndex s) =
      some { prompt_hash := env.hash p, prompt := String.mk (p.toList.take 200),
             response := r, timestamp := t, hit_count := 0 } :=
    Function.update_same _ _ _
  have hsim1 : simAt env (SOAState.set env s p r t).2 (env.emb p) (setIndex s) = 1 := by
    unfold simAt
    rw [hnorms, hembs, if_pos ⟨hpos, hpos⟩, qdiv_eq, ← hnrm, qmul_eq]
    have hne : env.nrm (env.emb p) ≠ 0 := ne_of_gt (lt_trans eps8_pos hpos)
    exact div_self (mul_ne_zero hne hne)
  have harg : argmaxIdx (compute_similarities env (SOAState.set env s p r t).2 (env.emb p))
      = setIndex s := by
    refine argmaxIdx_spec _ (setIndex s) 1 ?_ ?_ ?_
    · rw [compute_similarities_length env _ _ hn0]
      exact hlt
    · rw [compute_similarities_getD env _ _ hn0 (setIndex s) hlt]
      exact hsim1
    · intro j hj hne
      rw [compute_similarities_length env _ _ hn0] at hj
      rw [compute_similarities_getD env _ _ hn0 j hj]
      exact hothers j hj hne
  have hthr : (SOAState.set env s p r t).2.similarity_threshold = s.similarity_threshold :=
    rfl
  simp only [get_eq env _ p hn0, harg]
  rw [compute_similarities_getD env _ _ hn0 (setIndex s) hlt, hsim1, hent]
  rw [if_pos (by rw [hthr]; exact hθ)]

/-- C1 witness: after inserting "p" into a fresh cache, get("p") returns
the stored response with similarity exactly 1. -/
theorem C1_witness : (SOAState.get envEx sEx1 "p").1 = (some "a", 1) :=
  C1_hit_after_set envEx (SOAState.init 2 10 exThreshold) "p" "a" 0 (by decide) (by decide)
    (by decide) (by decide) (fun j hj hne => absurd (Nat.lt_one_iff.mp hj) hne)

theorem get_preserves_inv (env : CacheEnv) (s : SOAState) (p : String)
    (hInv : CacheInv env s) : CacheInv env (SOAState.get env s p).2 := by
  by_cases hn : s.n_entries = 0
  · unfold SOAState.get
    rw [if_pos hn]
    exact hInv
  · simp only [get_eq env s p hn]
    split
    · split
      · rename_i e he
        intro i hi
        rcases hInv i hi with ⟨h1, h2⟩
        refine ⟨?_, h2⟩
        show Function.update s.entries (argmaxIdx (compute_similarities env s (env.emb p)))
            (some { e with hit_count := e.hit_count + 1 }) i ≠ none
        by_cases hib : i = argmaxIdx (compute_similarities env s (env.emb p))
        · subst hib
          rw [Function.update_same]
          simp
        · rw [Function.update_noteq hib]
          exact h1
      · exact fun i hi => hInv i hi
    · exact fun i hi => hInv i hi

theorem set_preserves_inv (env : CacheEnv) (s : SOAState) (p r : String) (t : ℚ)
    (hInv : CacheInv env s) : CacheInv env (SOAState.set env s p r t).2 := by
  intro i hi
  by_cases hidx : i = setIndex s
  · subst hidx
    constructor
    · rw [show (SOAState.set env s p r t).2.entries (setIndex s) =
          some { prompt_hash := env.hash p, prompt := String.mk (p.toList.take 200),
                 response := r, timestamp := t, hit_count := 0 } from
        Function.update_same _ _ _]
      simp
    · rw [show (SOAState.set env s p r t).2.norms (setIndex s) = env.nrm (env.emb p) from
        Function.update_same _ _ _,
        show (SOAState.set env s p r t).2.embeddings (setIndex s) = env.emb p from
        Function.update_same _ _ _]
      rw [sub_self, abs_zero]
      exact eps5_pos
  · have hi' : i < s.n_entries := by
      have hn : (SOAState.set env s p r t).2.n_entries =
          if s.n_entries ≥ s.max_entries then s.n_entries else s.n_entries + 1 := rfl
      rw [hn] at hi
      by_cases hfull : s.n_entries ≥ s.max_entries
      · rwa [if_pos hfull] at hi
      · rw [if_neg hfull] at hi
        have hsi : setIndex s = s.n_entries := by
          unfold setIndex
          rw [if_neg hfull]
        rw [hsi] at hidx
        omega
    rcases hInv i hi' with ⟨h1, h2⟩
    refine ⟨?_, ?_⟩
    · rw [show (SOAState.set env s p r t).2.entries i = s.entries i from
        Function.update_noteq hidx _ _]
      exact h1
    · rw [show (SOAState.set env s p r t).2.norms i = s.norms i from
        Function.update_noteq hidx _ _,
        show (SOAState.set env s p r t).2.embeddings i = s.embeddings i from
        Function.update_noteq hidx _ _]
      exact h2

theorem invalidateAll_preserves_inv (env : CacheEnv) (s : SOAState) :
    CacheInv env (SOAState.invalidateAll s).2 := by
  intro i hi
  exact absurd hi (by simp [SOAState.invalidateAll])

theorem invalidate_preserves_norm_inv (env : CacheEnv) (s : SOAState) (p : String)
    (hInv : NormInv env s)
    (hzero : env.nrm (List.replicate s.dimension 0) = 0) :
    NormInv env (SOAState.invalidate env s p).2 := by
  intro i hi
  have hi' : i < s.n_entries := hi
  by_cases hh : invHit env s p i = true
  · rw [show (SOAState.invalidate env s p).2.norms i =
        (if invHit env s p i then 0 else s.norms i) from rfl,
      show (SOAState.invalidate env s p).2.embeddings i =
        (if invHit env s p i then List.replicate s.dimension 0 else s.embeddings i) from rfl,
      if_pos hh, if_pos hh, hzero, sub_self, abs_zero]
    exact eps5_pos
  · rw [show (SOAState.invalidate env s p).2.norms i =
        (if invHit env s p i then 0 else s.norms i) from rfl,
      show (SOAState.invalidate env s p).2.embeddings i =
        (if invHit env s p i then List.replicate s.dimension 0 else s.embeddings i) from rfl,
      if_neg (by simp [hh]), if_neg (by simp [hh])]
    exact hInv i hi'

/-- The one-entry example state satisfies I1. -/
theorem cacheInv_sEx1 : CacheInv envEx sEx1 := by
  intro i hi
  have h1 : sEx1.n_entries = 1 := by decide
  have hi0 : i = 0 := by omega
  subst hi0
  refine ⟨by decide, ?_⟩
  have h5 : sEx1.norms 0 = 5 := by decide
  have he : envEx.nrm (sEx1.embeddings 0) = 5 := by decide
  rw [h5, he, sub_self, abs_zero]
  exact eps5_pos

/-- C2: counterexample.  A specific-prompt invalidation clears the metadata
slot without shrinking n_entries, so the entries[i] ≠ none half of I1 is
broken by the public operation invalidate(prompt). -/
theorem C2_counterexample :
    CacheInv envEx sEx1 ∧ ¬ CacheInv envEx (SOAState.invalidate envEx sEx1 "p").2 := by
  refine ⟨cacheInv_sEx1, ?_⟩
  intro h
  have h1 : (SOAState.invalidate envEx sEx1 "p").2.n_entries = 1 := by decide
  have h2 : (SOAState.invalidate envEx sEx1 "p").2.entries 0 = none := by decide
  exact (h 0 (by omega)).1 h2

/-- C2 (amended): I1 is preserved by get, set and invalidate-all; a
specific-prompt invalidation preserves the norm-consistency half of I1 but
can leave entries[i] = none below n_entries, as the counterexample shows. -/
theorem C2_invariant_preservation (env : CacheEnv) (s : SOAState) (p q r : String)
    (t : ℚ) (hInv : CacheInv env s)
    (hzero : env.nrm (List.replicate s.dimension 0) = 0) :
    CacheInv env (SOAState.get env s q).2 ∧
    CacheInv env (SOAState.set env s p r t).2 ∧
    CacheInv env (SOAState.invalidateAll s).2 ∧
    NormInv env (SOAState.invalidate env s p).2 :=
  ⟨get_preserves_inv env s q hInv, set_preserves_inv env s p r t hInv,
   invalidateAll_preserves_inv env s,
   invalidate_preserves_norm_inv env s p (fun i hi => (hInv i hi).2) hzero⟩

/-- C2 witness: preservation of I1 on the one-entry example cache. -/
theorem C2_witness :
    CacheInv envEx (SOAState.get envEx sEx1 "q").2 ∧
    CacheInv envEx (SOAState.set envEx sEx1 "p2" "b" 1).2 ∧
    CacheInv envEx (SOAState.invalidateAll sEx1).2 ∧
    NormInv envEx (SOAState.invalidate envEx sEx1 "p2").2 :=
  C2_invariant_preservation envEx sEx1 "p2" "q" "b" 1 cacheInv_sEx1 (by decide)

theorem applySets_n (env : CacheEnv) :
    ∀ (ops : List (String × String × ℚ)) (s : SOAState),
      s.n_entries ≤ s.max_entries →
      (applySets env s ops).n_entries = min (s.n_entries + ops.length) s.max_entries ∧
      (applySets env s ops).max_entries = s.max_entries := by
  intro ops
  induction ops with
  | nil =>
    intro s h
    constructor
    · simp only [applySets, List.length_nil, Nat.add_zero]
      omega
    · rfl
  | cons op rest ih =>
    intro s h
    rcases op with ⟨p, r, t⟩
    rw [show applySets env s ((p, r, t) :: rest) =
        applySets env (SOAState.set env s p r t).2 rest from rfl]
    have hn : (SOAState.set env s p r t).2.n_entries =
        if s.n_entries ≥ s.max_entries then s.n_entries else s.n_entries + 1 := rfl
    have hm : (SOAState.set env s p r t).2.max_entries = s.max_entries := rfl
    have h' : (SOAState.set env s p r t).2.n_entries ≤
        (SOAState.set env s p r t).2.max_entries := by
      rw [hn, hm]
      split <;> omega
    rcases ih (SOAState.set env s p r t).2 h' with ⟨h1, h2⟩
    rw [h1, h2, hn, hm]
    constructor
    · simp only [List.length_cons]
      split <;> omega
    · rfl

theorem applySets_hash_distinct (env : CacheEnv) (hinj : Function.Injective env.hash) :
    ∀ (ops : List (String × String × ℚ)) (s : SOAState) (done : List String),
      (done ++ ops.map (fun o => o.1)).Nodup →
      s.n_entries ≤ s.max_entries →
      (∀ i, i < s.n_entries → ∃ p ∈ done, hashAt s i = some (env.hash p)) →
      (∀ i j, i < s.n_entries → j < s.n_entries → i ≠ j → hashAt s i ≠ hashAt s j) →
      (∀ i, i < (applySets env s ops).n_entries →
          ∃ p ∈ done ++ ops.map (fun o => o.1),
            hashAt (applySets env s ops) i = some (env.hash p)) ∧
      (∀ i j, i < (applySets env s ops).n_entries → j < (applySets env s ops).n_entries →
          i ≠ j → hashAt (applySets env s ops) i ≠ hashAt (applySets env s ops) j) := by
  intro ops
  induction ops with
  | nil =>
    intro s done _ _ hocc hdist
    refine ⟨?_, hdist⟩
    intro i hi
    rcases hocc i hi with ⟨p, hp, h⟩
    exact ⟨p, by simpa using hp, h⟩
  | cons op rest ih =>
    rcases op with ⟨p, r, t⟩
    intro s done hnd hle hocc hdist
    rw [show applySets env s ((p, r, t) :: rest) =
        applySets env (SOAState.set env s p r t).2 rest from rfl]
    have hn : (SOAState.set env s p r t).2.n_entries =
        if s.n_entries ≥ s.max_entries then s.n_entries else s.n_entries + 1 := rfl
    have hm : (SOAState.set env s p r t).2.max_entries = s.max_entries := rfl
    have hle' : (SOAState.set env s p r t).2.n_entries ≤
        (SOAState.set env s p r t).2.max_entries := by
      rw [hn, hm]
      split <;> omega
    have hother : ∀ i, i < (SOAState.set env s p r t).2.n_entries → i ≠ setIndex s →
        i < s.n_entries ∧ hashAt (SOAState.set env s p r t).2 i = hashAt s i := by
      intro i hi hne
      constructor
      · rw [hn] at hi
        by_cases hfull : s.n_entries ≥ s.max_entries
        · rwa [if_pos hfull] at hi
        · rw [if_neg hfull] at hi
          have hsi : setIndex s = s.n_entries := by
            unfold setIndex
            rw [if_neg hfull]
          rw [hsi] at hne
          omega
      · unfold hashAt
        rw [show (SOAState.set env s p r t).2.entries i = s.entries i from
          Function.update_noteq hne _ _]
    have hatidx : hashAt (SOAState.set env s p r t).2 (setIndex s) = some (env.hash p) := by
      unfold hashAt
      rw [show (SOAState.set env s p r t).2.entries (setIndex s) =
          some { prompt_hash := env.hash p, prompt := String.mk (p.toList.take 200),
                 response := r, timestamp := t, hit_count := 0 } from
        Function.update_same _ _ _]
      rfl
    have hpnotdone : p ∉ done := by
      have := hnd
      rw [List.map_cons] at this
      intro hp
      rcases List.nodup_append.mp this with ⟨_, _, hdisj⟩
      exact hdisj hp (List.mem_cons_self _ _)
    have hocc' : ∀ i, i < (SOAState.set env s p r t).2.n_entries →
        ∃ q ∈ done ++ [p], hashAt (SOAState.set env s p r t).2 i = some (env.hash q) := by
      intro i hi
      by_cases hne : i = setIndex s
      · subst hne
        exact ⟨p, List.mem_append_right _ (List.mem_singleton_self p), hatidx⟩
      · rcases hother i hi hne with ⟨hi', heq⟩
        rcases hocc i hi' with ⟨q, hq, h⟩
        exact ⟨q, List.mem_append_left _ hq, heq ▸ h⟩
    have hdist' : ∀ i j, i < (SOAState.set env s p r t).2.n_entries →
        j < (SOAState.set env s p r t).2.n_entries → i ≠ j →
        hashAt (SOAState.set env s p r t).2 i ≠ hashAt (SOAState.set env s p r t).2 j := by
      intro i j hi hj hij
      by_cases hi0 : i = setIndex s
      · subst hi0
        have hjne : j ≠ setIndex s := fun hc => hij hc.symm
        rcases hother j hj hjne with ⟨hj', heqj⟩
        rcases hocc j hj' with ⟨q, hq, hhq⟩
        rw [hatidx, heqj, hhq]
        intro hc
        have : env.hash p = env.hash q := by simpa using hc
        exact hpnotdone (hinj this ▸ hq)
      · by_cases hj0 : j = setIndex s
        · subst hj0
          rcases hother i hi hi0 with ⟨hi', heqi⟩
          rcases hocc i hi' with ⟨q, hq, hhq⟩
          rw [hatidx, heqi, hhq]
          intro hc
          have : env.hash q = env.hash p := by simpa using hc
          exact hpnotdone (hinj this ▸ hq)
        · rcases hother i hi hi0 with ⟨hi', heqi⟩
          rcases hother j hj hj0 with ⟨hj', heqj⟩
          rw [heqi, heqj]
          exact hdist i j hi' hj' hij
    have hnd' : ((done ++ [p]) ++ rest.map (fun o => o.1)).Nodup := by
      rw [← List.append_cons done p (rest.map (fun o => o.1))]
      simpa using hnd
    rcases ih (SOAState.set env s p r t).2 (done ++ [p]) hnd' hle' hocc' hdist'
      with ⟨ho, hd⟩
    refine ⟨?_, hd⟩
    intro i hi
    rcases ho i hi with ⟨q, hq, h⟩
    refine ⟨q, ?_, h⟩
    rw [List.map_cons, List.append_cons done p (rest.map (fun o => o.1))]
    exact hq

/-- C3: counterexample.  Three inserts of the same prompt into a two-slot
cache end with n_entries = max_entries = 2, but the two occupied slots
carry the same prompt hash: set never deduplicates, so repeated prompts
refute the no-two-slots-share-a-hash half of the claim. -/
theorem C3_counterexample :
    sDup.n_entries = 2 ∧ sDup.max_entries = 2 ∧
    hashAt sDup 0 = some (envEx.hash "p") ∧ hashAt sDup 1 = some (envEx.hash "p") ∧
    hashAt sDup 0 = hashAt sDup 1 :=
  ⟨by decide, by decide, by decide, by decide, by decide⟩

/-- C3 (amended): after any sequence of more than max_entries inserts into a
fresh cache, n_entries = max_entries; and when the inserted prompts are
pairwise distinct and the truncated hash collision-free, no two occupied
slots share a prompt hash.  With repeated prompts duplicate hashes do
occur, as the counterexample shows. -/
theorem C3_eviction_bound_and_distinct_hashes (env : CacheEnv)
    (ops : List (String × String × ℚ)) (dim maxE : Nat) (θ : ℚ)
    (hlen : ops.length > maxE) :
    (applySets env (SOAState.init dim maxE θ) ops).n_entries = maxE ∧
    ((ops.map (fun o => o.1)).Nodup → Function.Injective env.hash →
      ∀ i j, i < maxE → j < maxE → i ≠ j →
        hashAt (applySets env (SOAState.init dim maxE θ) ops) i ≠
          hashAt (applySets env (SOAState.init dim maxE θ) ops) j) := by
  have hinit_n : (SOAState.init dim maxE θ).n_entries = 0 := rfl
  have hinit_m : (SOAState.init dim maxE θ).max_entries = maxE := rfl
  have hle : (SOAState.init dim maxE θ).n_entries ≤ (SOAState.init dim maxE θ).max_entries := by
    rw [hinit_n]
    omega
  have hn := applySets_n env ops (SOAState.init dim maxE θ) hle
  have hfinal : (applySets env (SOAState.init dim maxE θ) ops).n_entries = maxE := by
    rw [hn.1, hinit_n, hinit_m]
    omega
  refine ⟨hfinal, ?_⟩
  intro hnd hinj i j hi hj hij
  have hd := (applySets_hash_distinct env hinj ops (SOAState.init dim maxE θ) []
    (by simpa using hnd) hle
    (by intro i hi; rw [hinit_n] at hi; omega)
    (by intro i j hi _ _; rw [hinit_n] at hi; omega)).2
  exact hd i j (by rw [hfinal]; exact hi) (by rw [hfinal]; exact hj) hij

/-- C3 witness: two distinct prompts into a one-slot cache — the final
count is the capacity and the (vacuous) distinctness holds. -/
theorem C3_witness :
    (applySets envEx (SOAState.init 2 1 exThreshold)
        [("a", "x", 0), ("b", "y", 1)]).n_entries = 1 ∧
    (∀ i j, i < 1 → j < 1 → i ≠ j →
      hashAt (applySets envEx (SOAState.init 2 1 exThreshold)
          [("a", "x", 0), ("b", "y", 1)]) i ≠
        hashAt (applySets envEx (SOAState.init 2 1 exThreshold)
          [("a", "x", 0), ("b", "y", 1)]) j) :=
  ⟨(C3_eviction_bound_and_distinct_hashes envEx [("a", "x", 0), ("b", "y", 1)] 2 1
      exThreshold (by decide)).1,
   (C3_eviction_bound_and_distinct_hashes envEx [("a", "x", 0), ("b", "y", 1)] 2 1
      exThreshold (by decide)).2 (by decide) (fun a b h => h)⟩

/-- C4: in lookup, a masked-out slot (stored norm at or below 1e-8) gets
similarity exactly 0 and can never be the returned hit; a degenerate query
norm zeroes every similarity and forces the miss result (None, 0).  The
division in simAt is guarded by the mask on both norms, so no division by a
degenerate norm is ever evaluated. -/
theorem C4_degenerate_norms_masked (env : CacheEnv) (s : SOAState) (p : String)
    (hθ : 0 < s.similarity_threshold) :
    (∀ i, i < s.n_entries → s.norms i ≤ eps8 →
        (compute_similarities env s (env.emb p)).getD i 0 = 0) ∧
    (∀ resp, (SOAState.get env s p).1.1 = some resp →
        s.norms (argmaxIdx (compute_similarities env s (env.emb p))) > eps8 ∧
        env.nrm (env.emb p) > eps8) ∧
    (env.nrm (env.emb p) ≤ eps8 → (SOAState.get env s p).1 = (none, 0)) := by
  refine ⟨?_, ?_, ?_⟩
  · intro i hi hnorm
    have hn : s.n_entries ≠ 0 := by omega
    rw [compute_similarities_getD env s _ hn i hi]
    unfold simAt
    rw [if_neg (fun hc => absurd hc.1 (not_lt.mpr hnorm))]
  · intro resp hr
    by_cases hn : s.n_entries = 0
    · exfalso
      unfold SOAState.get at hr
      rw [if_pos hn] at hr
      simp at hr
    · have hlen : (compute_similarities env s (env.emb p)).length = s.n_entries :=
        compute_similarities_length env s _ hn
      have hbl : argmaxIdx (compute_similarities env s (env.emb p)) < s.n_entries := by
        rw [← hlen]
        apply argmaxIdx_lt
        intro hnil
        rw [hnil] at hlen
        exact hn hlen.symm
      have hbest : (compute_similarities env s (env.emb p)).getD
          (argmaxIdx (compute_similarities env s (env.emb p))) 0 =
          simAt env s (env.emb p) (argmaxIdx (compute_similarities env s (env.emb p))) :=
        compute_similarities_getD env s _ hn _ hbl
      simp only [get_eq env s p hn] at hr
      by_contra hng
      have hsim0 : simAt env s (env.emb p)
          (argmaxIdx (compute_similarities env s (env.emb p))) = 0 := by
        unfold simAt
        rw [if_neg hng]
      rw [hbest, hsim0] at hr
      rw [if_neg (not_le.mpr hθ)] at hr
      simp at hr
  · intro hq
    by_cases hn : s.n_entries = 0
    · unfold SOAState.get
      rw [if_pos hn]
    · have hlen : (compute_similarities env s (env.emb p)).length = s.n_entries :=
        compute_similarities_length env s _ hn
      have hbl : argmaxIdx (compute_similarities env s (env.emb p)) < s.n_entries := by
        rw [← hlen]
        apply argmaxIdx_lt
        intro hnil
        rw [hnil] at hlen
        exact hn hlen.symm
      have hbest : (compute_similarities env s (env.emb p)).getD
          (argmaxIdx (compute_similarities env s (env.emb p))) 0 =
          simAt env s (env.emb p) (argmaxIdx (compute_similarities env s (env.emb p))) :=
        compute_similarities_getD env s _ hn _ hbl
      have hsim0 : simAt env s (env.emb p)
          (argmaxIdx (compute_similarities env s (env.emb p))) = 0 := by
        unfold simAt
        rw [if_neg (fun hc => absurd hc.2 (not_lt.mpr hq))]
      simp only [get_eq env s p hn]
      rw [hbest, hsim0, if_neg (not_le.mpr hθ)]

/-- C4 witness: on the cache holding a zero-norm slot for "z", a lookup
with the degenerate query "z" reports similarity 0 and misses, and only
the non-degenerate slot could ever be a hit. -/
theorem C4_witness :
    (∀ i, i < sDeg.n_entries → sDeg.norms i ≤ eps8 →
        (compute_similarities envDeg sDeg (envDeg.emb "z")).getD i 0 = 0) ∧
    (∀ resp, (SOAState.get envDeg sDeg "z").1.1 = some resp →
        sDeg.norms (argmaxIdx (compute_similarities envDeg sDeg (envDeg.emb "z"))) > eps8 ∧
        envDeg.nrm (envDeg.emb "z") > eps8) ∧
    (envDeg.nrm (envDeg.emb "z") ≤ eps8 → (SOAState.get envDeg sDeg "z").1 = (none, 0)) :=
  C4_degenerate_norms_masked envDeg sDeg "z" (by decide)

/-- C5: counterexample.  Restoring from a store holding a count key but no
embeddings blob leaves n_entries = 1: the cache is not empty after a
partial restoration. -/
theorem C5_counterexample :
    (load_from_redis envEx 2 3 exThreshold
        { count := some 1, blob := none, entryAt := fun _ => none }).n_entries = 1 ∧
    (load_from_redis envEx 2 3 exThreshold
        { count := some 1, blob := none, entryAt := fun _ => none }).n_entries ≠ 0 :=
  ⟨by decide, by decide⟩

/-- C5 (amended): partial restoration (count without blob, or blob of the
wrong size) yields a half-loaded state, not an empty one: n_entries is the
stored count, embeddings and norms stay zero (so every lookup is a miss),
and metadata entries below the count are loaded independently when
present. -/
theorem C5_partial_restore (env : CacheEnv) (dim maxE : Nat) (θ : ℚ) (store : RedisStore)
    (hbad : store.blob = none ∨ ∃ fs, store.blob = some fs ∧ fs.length ≠ dim * maxE) :
    (load_from_redis env dim maxE θ store).n_entries = store.count.getD 0 ∧
    (∀ i, (load_from_redis env dim maxE θ store).embeddings i = List.replicate dim 0) ∧
    (∀ i, (load_from_redis env dim maxE θ store).norms i = 0) ∧
    (∀ i, (load_from_redis env dim maxE θ store).entries i =
        if i < store.count.getD 0 then store.entryAt i else none) := by
  unfold load_from_redis SOAState.init
  rcases hbad with h | ⟨fs, h, hlen⟩
  · simp only [h]
    exact ⟨trivial, fun _ => trivial, fun _ => trivial, fun _ => trivial⟩
  · simp only [h, if_neg hlen]
    exact ⟨trivial, fun _ => trivial, fun _ => trivial, fun _ => trivial⟩

/-- C5 witness: the amended behaviour at a concrete store with a count of
two and no blob. -/
theorem C5_witness :
    (load_from_redis envEx 2 3 exThreshold
        { count := some 2, blob := none, entryAt := fun _ => none }).n_entries =
      (some 2 : Option Nat).getD 0 ∧
    (∀ i, (load_from_redis envEx 2 3 exThreshold
        { count := some 2, blob := none, entryAt := fun _ => none }).embeddings i =
      List.replicate 2 0) ∧
    (∀ i, (load_from_redis envEx 2 3 exThreshold
        { count := some 2, blob := none, entryAt := fun _ => none }).norms i = 0) ∧
    (∀ i, (load_from_redis envEx 2 3 exThreshold
        { count := some 2, blob := none, entryAt := fun _ => none }).entries i =
      if i < (some 2 : Option Nat).getD 0 then (fun _ => (none : Option CacheEntry)) i
      else none) :=
  C5_partial_restore envEx 2 3 exThreshold
    { count := some 2, blob := none, entryAt := fun _ => none } (Or.inl rfl)
